import Mathlib

/-!
# Verification of the video-analysis response-normalization core

This development gives a shallow embedding of the response-normalization and
schema-coercion layer of the repository:

* `openrouter_client.parse_json_from_model_text` and
  `video_llm_integration._parse_json_safe` (the raw-text extractor), together
  with a model of Python's `json.loads`, `str.strip`, `str.rstrip`,
  `str.startswith`, `str.endswith`, `str.find` and slicing, and
* `video_analysis_models` (the pydantic schema coercer): the `AnalysisResult`
  tree, its field validators (`_coerce_segment_id`,
  `_coerce_text_extraction_ocr`, `_convert_time_to_string`,
  `_coerce_target_audience`), the model validator `_coerce_time_range`, and
  `_seconds_to_time_string`.

Python strings are modelled as `List Char` (wrapped in Lean `String`s at the
boundary); Python ints as `Int`; Python floats as exact rationals (`Rat`), an
idealization that is only used for the numeric-seconds conversion path where
the code immediately truncates to an integer.  JSON numbers parse to `jint`
for integer literals and `jfloat` otherwise, as `json.loads` produces
`int`/`float`.  Pydantic's lax validation is modelled for the value shapes
the repository's data flow can produce (strings, ints, floats, bools, lists,
objects, null); pydantic additionally accepts numeric strings for int/float
fields, which no code path here exercises and which is not modelled.
Pydantic reports all field errors at once; the model reports the first,
which does not change whether validation succeeds.
-/

/-- A JSON-like Python value as produced by `json.loads`: `null`, `bool`,
`int`, `float` (modelled as an exact rational), `str`, `list`, `dict`
(association list with unique keys, insertion ordered, as Python dicts). -/
inductive Json where
  | null : Json
  | jbool : Bool → Json
  | jint : Int → Json
  | jfloat : Rat → Json
  | jstr : String → Json
  | jarr : List Json → Json
  | jobj : List (String × Json) → Json

/-! ## Character classes -/

/-- The four JSON whitespace characters accepted by `json.loads`. -/
def jsonWsChars : List Char := [' ', '\t', '\n', '\r']

def isJsonWs (c : Char) : Bool := jsonWsChars.contains c

/-- The characters stripped by Python `str.strip()` / `str.rstrip()`
(the `str.isspace` set: ASCII whitespace, the C1 controls Python treats as
space, and the Unicode space separators). -/
def pyWsChars : List Char :=
  [' ', '\t', '\n', '\r', '\x0b', '\x0c', '\x1c', '\x1d', '\x1e', '\x1f',
   '\x85', '\xa0', ' ', ' ', ' ', ' ', ' ',
   ' ', ' ', ' ', ' ', ' ', ' ', ' ',
   ' ', ' ', ' ', ' ', '　']

def isPyWs (c : Char) : Bool := pyWsChars.contains c

def digitChars : List Char := ['0', '1', '2', '3', '4', '5', '6', '7', '8', '9']

def isDigitCh (c : Char) : Bool := digitChars.contains c

/-! ## Python string helpers (on `List Char`) -/

/-- Python `str.lstrip()`. -/
def lstripPy (l : List Char) : List Char := l.dropWhile isPyWs

/-- Python `str.rstrip()`. -/
def rstripPy (l : List Char) : List Char := l.rdropWhile isPyWs

/-- Python `str.strip()`. -/
def stripPy (l : List Char) : List Char := rstripPy (lstripPy l)

/-- Python `str.startswith("\x60\x60\x60")`. -/
def startsFence : List Char → Bool
  | '\x60' :: '\x60' :: '\x60' :: _ => true
  | _ => false

/-- Python `str.endswith("\x60\x60\x60")`. -/
def endsFence (l : List Char) : Bool := startsFence l.reverse

/-- Python slicing `s[:-3]`. -/
def dropLast3 (l : List Char) : List Char := l.rdrop 3

/-- The text after the first newline, when one exists: models
`s.find("\n")` followed by `s[first_fence_end + 1 :]`. -/
def afterFirstNL : List Char → Option (List Char)
  | [] => none
  | '\n' :: r => some r
  | _ :: r => afterFirstNL r

/-! ## A model of `json.loads`

Strict JSON per RFC 8259 as implemented by Python's `json` module: the four
whitespace characters, no trailing data, `int` for integer literals and
`float` otherwise, last-wins duplicate object keys, raw control characters
rejected inside strings.  (Lone surrogate escapes, which CPython accepts into
its `str` type, cannot be represented in `Char` and are rejected here; no
claim depends on them.) -/

def skipJsonWs (l : List Char) : List Char := l.dropWhile isJsonWs

def digitsToNat (ds : List Char) : Nat :=
  ds.foldl (fun n c => 10 * n + (c.toNat - 48)) 0

def hexVal (c : Char) : Option Nat :=
  if isDigitCh c then some (c.toNat - 48)
  else if ['a', 'b', 'c', 'd', 'e', 'f'].contains c then some (c.toNat - 87)
  else if ['A', 'B', 'C', 'D', 'E', 'F'].contains c then some (c.toNat - 55)
  else none

/-- The decoded character of a single-letter escape. -/
def escChar (e : Char) : Option Char :=
  if e == '"' then some '"'
  else if e == '\\' then some '\\'
  else if e == '/' then some '/'
  else if e == 'b' then some '\x08'
  else if e == 'f' then some '\x0c'
  else if e == 'n' then some '\n'
  else if e == 'r' then some '\r'
  else if e == 't' then some '\t'
  else none

/-- Decode one escape sequence after the backslash: returns the decoded
character and the remaining input.  Surrogate pairs are combined; lone
surrogates (which CPython would accept) are rejected. -/
def unescapeOne : List Char → Option (Char × List Char)
  | [] => none
  | e :: rest2 =>
    if e == 'u' then
      match rest2 with
      | a :: b :: c2 :: d :: rest3 =>
        match hexVal a, hexVal b, hexVal c2, hexVal d with
        | some ha, some hb, some hc, some hd =>
          let n := ((ha * 16 + hb) * 16 + hc) * 16 + hd
          if 0xd800 ≤ n ∧ n < 0xdc00 then
            match rest3 with
            | b1 :: u2 :: a2 :: b2 :: c3 :: d2 :: rest4 =>
              if b1 == '\\' && u2 == 'u' then
                match hexVal a2, hexVal b2, hexVal c3, hexVal d2 with
                | some ha2, some hb2, some hc2, some hd2 =>
                  let n2 := ((ha2 * 16 + hb2) * 16 + hc2) * 16 + hd2
                  if 0xdc00 ≤ n2 ∧ n2 < 0xe000 then
                    some (Char.ofNat (0x10000 + (n - 0xd800) * 0x400 + (n2 - 0xdc00)), rest4)
                  else none
                | _, _, _, _ => none
              else none
            | _ => none
          else if 0xdc00 ≤ n ∧ n < 0xe000 then none
          else some (Char.ofNat n, rest3)
        | _, _, _, _ => none
      | _ => none
    else
      match escChar e with
      | some ch => some (ch, rest2)
      | none => none

/-- Body of a JSON string after the opening quote; returns the decoded
characters and the input remaining after the closing quote.  Fuel bounds the
recursion depth; callers pass `length + 1`, which always suffices since
every step consumes at least one character. -/
def parseStringBody : Nat → List Char → Option (List Char × List Char)
  | 0, _ => none
  | _ + 1, [] => none
  | fuel + 1, c :: rest =>
    if c == '"' then some ([], rest)
    else if c == '\\' then
      match unescapeOne rest with
      | some (ch, rest2) =>
        (parseStringBody fuel rest2).map (fun p => (ch :: p.1, p.2))
      | none => none
    else if c.toNat < 32 then none
    else (parseStringBody fuel rest).map (fun p => (c :: p.1, p.2))

/-- `q * 10 ^ e` for an integer exponent. -/
def ratScale (q : Rat) (e : Int) : Rat :=
  if 0 ≤ e then q * (10 : Rat) ^ e.toNat else q / (10 : Rat) ^ (-e).toNat

/-- The exponent digits of a JSON number, after the sign. -/
def parseExpDigits (mant : Rat) (esgn : Int) (r3 : List Char) :
    Option (Json × List Char) :=
  let ep := r3.takeWhile isDigitCh
  if ep = [] then none
  else
    some (.jfloat (ratScale mant (esgn * (digitsToNat ep : Int))),
      r3.dropWhile isDigitCh)

/-- The exponent tail of a JSON number, after the `e`/`E`: an optional sign
then at least one digit. -/
def parseExpTail (mant : Rat) (r2 : List Char) : Option (Json × List Char) :=
  match r2 with
  | c :: t =>
    if c == '-' then parseExpDigits mant (-1) t
    else if c == '+' then parseExpDigits mant 1 t
    else parseExpDigits mant 1 (c :: t)
  | [] => none

/-- After the mantissa: an optional exponent; an integer literal without
fraction or exponent stays `jint`. -/
def parseAfterMant (mant : Rat) (isInt : Bool) (ipv : Int) (r : List Char) :
    Option (Json × List Char) :=
  match r with
  | c :: r2 =>
    if c == 'e' || c == 'E' then parseExpTail mant r2
    else if isInt then some (.jint ipv, r)
    else some (.jfloat mant, r)
  | [] => if isInt then some (.jint ipv, r) else some (.jfloat mant, r)

/-- The fraction tail of a JSON number, after the decimal point: at least
one digit, then an optional exponent. -/
def parseFracRest (sgn : Int) (ipv : Int) (r2 : List Char) :
    Option (Json × List Char) :=
  let fp := r2.takeWhile isDigitCh
  if fp = [] then none
  else
    let mant : Rat := (ipv : Rat) +
      (sgn : Rat) * ((digitsToNat fp : Rat) / (10 : Rat) ^ fp.length)
    parseAfterMant mant false ipv (r2.dropWhile isDigitCh)

/-- A JSON number after the optional minus sign: integer part without
leading zeros, optional fraction, optional exponent. -/
def parseIntRest (sgn : Int) (l1 : List Char) : Option (Json × List Char) :=
  let ip := l1.takeWhile isDigitCh
  if ip = [] then none
  else if 2 ≤ ip.length ∧ ip.head? = some '0' then none
  else
    let ipv : Int := sgn * (digitsToNat ip : Int)
    match l1.dropWhile isDigitCh with
    | c :: r2 =>
      if c == '.' then parseFracRest sgn ipv r2
      else parseAfterMant (ipv : Rat) true ipv (c :: r2)
    | [] => parseAfterMant (ipv : Rat) true ipv []

/-- A JSON number: optional minus, integer part without leading zeros,
optional fraction, optional exponent.  Integer literals give `jint`, any
fraction or exponent gives `jfloat`, as in Python's `json`. -/
def parseNumber (l : List Char) : Option (Json × List Char) :=
  match l with
  | c :: t => if c == '-' then parseIntRest (-1) t else parseIntRest 1 (c :: t)
  | [] => none

/-- Insert a key into a parsed object, replacing in place when the key is
already present: Python dict semantics (first position, last value) for
duplicate keys in a JSON document. -/
def insertKV (kvs : List (String × Json)) (k : String) (v : Json) :
    List (String × Json) :=
  if kvs.any (fun p => p.1 == k) then
    kvs.map (fun p => if p.1 == k then (k, v) else p)
  else kvs ++ [(k, v)]

mutual

/-- One JSON value starting at the head of the input (no leading whitespace);
returns the value and the remaining input. -/
def parseValue : Nat → List Char → Option (Json × List Char)
  | 0, _ => none
  | fuel + 1, l =>
    match l with
    | [] => none
    | c :: rest =>
      if c == '\x7b' then
        match skipJsonWs rest with
        | c2 :: r => if c2 == '\x7d' then some (.jobj [], r)
                     else parseMembers fuel (c2 :: r) []
        | [] => none
      else if c == '[' then
        match skipJsonWs rest with
        | c2 :: r => if c2 == ']' then some (.jarr [], r)
                     else parseElems fuel (c2 :: r) []
        | [] => none
      else if c == '"' then
        (parseStringBody (rest.length + 1) rest).map
          (fun p => (Json.jstr (String.mk p.1), p.2))
      else if c == 't' then
        match rest with
        | r1 :: r2 :: r3 :: rr =>
          if r1 == 'r' && r2 == 'u' && r3 == 'e' then some (.jbool true, rr)
          else none
        | _ => none
      else if c == 'f' then
        match rest with
        | r1 :: r2 :: r3 :: r4 :: rr =>
          if r1 == 'a' && r2 == 'l' && r3 == 's' && r4 == 'e' then
            some (.jbool false, rr)
          else none
        | _ => none
      else if c == 'n' then
        match rest with
        | r1 :: r2 :: r3 :: rr =>
          if r1 == 'u' && r2 == 'l' && r3 == 'l' then some (.null, rr)
          else none
        | _ => none
      else if c == '-' || isDigitCh c then parseNumber l
      else none

/-- Array elements after `[` (whitespace already skipped, at least one
element present). -/
def parseElems : Nat → List Char → List Json → Option (Json × List Char)
  | 0, _, _ => none
  | fuel + 1, l, acc =>
    match parseValue fuel l with
    | none => none
    | some (v, r) =>
      match skipJsonWs r with
      | c :: r2 =>
        if c == ',' then parseElems fuel (skipJsonWs r2) (acc ++ [v])
        else if c == ']' then some (.jarr (acc ++ [v]), r2)
        else none
      | [] => none

/-- Object members after `\x7b` (whitespace already skipped, at least one
member present). -/
def parseMembers : Nat → List Char → List (String × Json) →
    Option (Json × List Char)
  | 0, _, _ => none
  | fuel + 1, l, acc =>
    match l with
    | c0 :: r0 =>
      if c0 == '"' then
        match parseStringBody (r0.length + 1) r0 with
        | none => none
        | some (k, r1) =>
          match skipJsonWs r1 with
          | c1 :: r2 =>
            if c1 == ':' then
              match parseValue fuel (skipJsonWs r2) with
              | none => none
              | some (v, r3) =>
                match skipJsonWs r3 with
                | c2 :: r4 =>
                  if c2 == ',' then
                    parseMembers fuel (skipJsonWs r4) (insertKV acc (String.mk k) v)
                  else if c2 == '\x7d' then
                    some (.jobj (insertKV acc (String.mk k) v), r4)
                  else none
                | [] => none
            else none
          | [] => none
      else none
    | [] => none

end

/-- Strip surrounding JSON whitespace. -/
def trimJsonWs (l : List Char) : List Char :=
  (l.dropWhile isJsonWs).rdropWhile isJsonWs

/-- `json.loads` on a character list: the whole (whitespace-trimmed) input
must be a single JSON value; `none` models `json.JSONDecodeError`. -/
def jsonLoadsChars (l : List Char) : Option Json :=
  let t := trimJsonWs l
  match parseValue (t.length + 2) t with
  | some (v, []) => some v
  | _ => none

/-- `json.loads` on a Python string. -/
def json_loads (s : String) : Option Json := jsonLoadsChars s.data

/-! ## The raw-text extractor

`openrouter_client.parse_json_from_model_text` (lines 102-116) and its
verbatim twin `video_llm_integration._parse_json_safe` (lines 34-53):

    cleaned = text.strip()
    if cleaned.startswith("\x60\x60\x60"):
        first_fence_end = cleaned.find("\n")
        if first_fence_end != -1:
            cleaned = cleaned[first_fence_end + 1 :]
        if cleaned.rstrip().endswith("\x60\x60\x60"):
            cleaned = cleaned.rstrip()[:-3]
    try:
        return json.loads(cleaned)
    except json.JSONDecodeError:
        return {"error": "Invalid JSON output", "raw": cleaned}
-/

/-- The cleanup performed on `text` before `json.loads` is attempted: the
value of the local variable `cleaned` at the `try` statement. -/
def stripFencesChars (l : List Char) : List Char :=
  let cleaned := stripPy l
  if startsFence cleaned then
    let cleaned1 :=
      match afterFirstNL cleaned with
      | some r => r
      | none => cleaned
    if endsFence (rstripPy cleaned1) then dropLast3 (rstripPy cleaned1)
    else cleaned1
  else cleaned

def stripFences (s : String) : String := String.mk (stripFencesChars s.data)

/-- `openrouter_client.parse_json_from_model_text`. -/
def parse_json_from_model_text (text : String) : Json :=
  match json_loads (stripFences text) with
  | some v => v
  | none =>
    .jobj [("error", .jstr "Invalid JSON output"), ("raw", .jstr (stripFences text))]

/-- `video_llm_integration._parse_json_safe`, textually the same algorithm as
`parse_json_from_model_text`. -/
def parse_json_safe (text : String) : Json :=
  match json_loads (stripFences text) with
  | some v => v
  | none =>
    .jobj [("error", .jstr "Invalid JSON output"), ("raw", .jstr (stripFences text))]

/-! ## Python `str()` on JSON-like values

`_coerce_segment_id` applies Python `str()` to arbitrary values and
`_coerce_target_audience` applies it to list items.  The claims only
exercise it on strings, ints and `None`; the remaining cases are modelled
best-effort: floats print their exact decimal expansion (Python prints the
shortest repr of the nearest IEEE double, and uses scientific notation for
extreme magnitudes — not modelled), and `repr` of strings always uses
single quotes and only escapes backslashes and quotes. -/

def padZerosLeft (s : String) (k : Nat) : String :=
  if s.length < k then String.mk (List.replicate (k - s.length) '0') ++ s else s

def dropTrailingZeros (s : String) : String :=
  match (s.data.reverse.dropWhile (fun c => c = '0')).reverse with
  | [] => "0"
  | l => String.mk l

/-- Least `k ≤ 39` with `den ∣ 10 ^ k`, when one exists. -/
def decExp (den : Nat) : Option Nat :=
  (List.range 40).find? (fun k => 10 ^ k % den == 0)

/-- Model of Python `str`/`repr` of a float, on the idealizing `Rat` carrier. -/
def floatStr (q : Rat) : String :=
  let sgn := if q.num < 0 then "-" else ""
  match decExp q.den with
  | some 0 => sgn ++ toString q.num.natAbs ++ ".0"
  | some k =>
    let scaled := q.num.natAbs * 10 ^ k / q.den
    let ip := scaled / 10 ^ k
    let fp := scaled % 10 ^ k
    sgn ++ toString ip ++ "." ++ dropTrailingZeros (padZerosLeft (toString fp) k)
  | none => sgn ++ toString q.num.natAbs ++ "/" ++ toString q.den

/-- Python `repr` of a string (single quotes; backslash and quote escaping). -/
def reprStrPy (s : String) : String :=
  "\x27" ++ String.mk (s.data.foldr
    (fun c acc =>
      (if c = '\\' then ['\\', '\\']
       else if c = '\x27' then ['\\', '\x27'] else [c]) ++ acc) []) ++ "\x27"

mutual

/-- Python `repr()` on JSON-like values. -/
def pyRepr : Json → String
  | .null => "None"
  | .jbool true => "True"
  | .jbool false => "False"
  | .jint n => toString n
  | .jfloat q => floatStr q
  | .jstr s => reprStrPy s
  | .jarr xs => "[" ++ String.intercalate ", " (pyReprList xs) ++ "]"
  | .jobj kvs =>
    "\x7b" ++ String.intercalate ", " (pyReprMembers kvs) ++ "\x7d"

def pyReprList : List Json → List String
  | [] => []
  | x :: xs => pyRepr x :: pyReprList xs

def pyReprMembers : List (String × Json) → List String
  | [] => []
  | (k, v) :: kvs => (reprStrPy k ++ ": " ++ pyRepr v) :: pyReprMembers kvs

end

/-- Python `str()` on JSON-like values (`str` is the identity on strings and
agrees with `repr` elsewhere). -/
def pyStr : Json → String
  | .jstr s => s
  | v => pyRepr v

/-! ## The schema coercer: `video_analysis_models`

Each pydantic model becomes a structure plus a `model_validate` function on
`Json` returning `Except String _` (a `ValidationError` collapses to the
first failing field).  `mode="before"` field validators are applied to the
supplied value before the type check, exactly when the key is present, as
pydantic does.  Extra keys are ignored (pydantic's default
`extra="ignore"`; none of the models sets `model_config`). -/

structure TechnicalSpecs where
  resolution : Option String := none
  fps : Option Rat := none
  audio_channels : Option Int := none
deriving DecidableEq, Repr

structure FileInfo where
  video_id : Option String := none
  filename : Option String := none
  processed_at : Option String := none
  duration_seconds : Option Rat := none
  technical_specs : Option TechnicalSpecs := none
deriving DecidableEq, Repr

structure GlobalAnalysis where
  title_detected : Option String := none
  topics : List String := []
  summary : Option String := none
  overall_sentiment : Option String := none
  dominant_language : Option String := none
deriving DecidableEq, Repr

structure TimeRange where
  start : String
  «end» : String
deriving DecidableEq, Repr

structure Classification where
  type : Option String := none
  topic : Option String := none
deriving DecidableEq, Repr

structure VisualSubject where
  label : Option String := none
  attributes : List String := []
  action : Option String := none
  emotion : Option String := none
deriving DecidableEq, Repr

structure VisualAnalysis where
  shot_type : Option String := none
  camera_movement : Option String := none
  main_subjects : List VisualSubject := []
  environment : Option String := none
deriving DecidableEq, Repr

structure AudioAnalysis where
  transcript : Option String := none
  speaker_id : Option String := none
  bg_music : Option String := none
  voice_intonation : Option String := none
deriving DecidableEq, Repr

structure TextExtractionOCR where
  visible_text : List String := []
  programming_language : Option String := none
deriving DecidableEq, Repr

structure EngagementMechanics where
  is_hook : Bool := false
  tactic : Option String := none
  psychological_trigger : Option String := none
deriving DecidableEq, Repr

structure IRReconstruction where
  abstract_concept : Option String := none
  generative_prompt : Option String := none
deriving DecidableEq, Repr

structure GlobalViralityAnalysis where
  virality_score : Option Int := none
  hook_strategy : Option String := none
  target_audience : Option String := none
  share_trigger : Option String := none
deriving DecidableEq, Repr

structure TimelineSegment where
  segment_id : Option String := none
  time_range : Option TimeRange := none
  start : Option String := none
  «end» : Option String := none
  classification : Option Classification := none
  visual_analysis : Option VisualAnalysis := none
  audio_analysis : Option AudioAnalysis := none
  text_extraction_ocr : Option TextExtractionOCR := none
  engagement_mechanics : Option EngagementMechanics := none
  ir_reconstruction : Option IRReconstruction := none
deriving DecidableEq, Repr

structure ExtractedAction where
  action : String
  timestamp : String
deriving DecidableEq, Repr

structure ExtractedEntities where
  actions_detected : List ExtractedAction := []
  key_objects : List String := []
  referenced_links : List String := []
deriving DecidableEq, Repr

structure AnalysisResult where
  file_info : Option FileInfo := none
  global_analysis : Option GlobalAnalysis := none
  global_virality : Option GlobalViralityAnalysis := none
  timeline_segments : List TimelineSegment := []
  extracted_entities : Option ExtractedEntities := none
deriving DecidableEq, Repr

/-! ### Validation primitives -/

/-- Top-level shape check of `model_validate`: a mapping is required. -/
def asObj : Json → Except String (List (String × Json))
  | .jobj o => .ok o
  | _ => .error "Input should be a valid dictionary"

/-- Key lookup in a parsed JSON object (keys are unique by construction). -/
def objGet : List (String × Json) → String → Option Json
  | [], _ => none
  | (k, v) :: rest, key => if k = key then some v else objGet rest key

def vStr : Json → Except String String
  | .jstr s => .ok s
  | _ => .error "Input should be a valid string"

def vInt : Json → Except String Int
  | .jint n => .ok n
  | .jfloat q =>
    if q.den = 1 then .ok q.num else .error "Input should be a valid integer"
  | _ => .error "Input should be a valid integer"

def vFloat : Json → Except String Rat
  | .jint n => .ok (n : Rat)
  | .jfloat q => .ok q
  | _ => .error "Input should be a valid number"

def vBool : Json → Except String Bool
  | .jbool b => .ok b
  | _ => .error "Input should be a valid boolean"

/-- An `Optional[_]` field: missing or `None` gives `none`. -/
def vOptField (f : Json → Except String α) (o : List (String × Json))
    (k : String) : Except String (Option α) :=
  match objGet o k with
  | none => .ok none
  | some .null => .ok none
  | some v => (f v).map some

def vList (f : Json → Except String α) : List Json → Except String (List α)
  | [] => .ok []
  | x :: xs => do
    let a ← f x
    let as ← vList f xs
    .ok (a :: as)

/-- A `List[_] = Field(default_factory=list)` field: missing gives `[]`;
anything but a list (including `None`) is rejected. -/
def vListField (f : Json → Except String α) (o : List (String × Json))
    (k : String) : Except String (List α) :=
  match objGet o k with
  | none => .ok []
  | some (.jarr xs) => vList f xs
  | some _ => .error "Input should be a valid list"

/-- A required `str` field (`TimeRange.start`, `ExtractedAction.action`). -/
def vReqStr (o : List (String × Json)) (k : String) : Except String String :=
  match objGet o k with
  | some (.jstr s) => .ok s
  | some _ => .error "Input should be a valid string"
  | none => .error "Field required"

/-- A `bool = False` field (`EngagementMechanics.is_hook`). -/
def vBoolFieldFalse (o : List (String × Json)) (k : String) :
    Except String Bool :=
  match objGet o k with
  | none => .ok false
  | some v => vBool v

/-! ### Model validators -/

def TechnicalSpecs.model_validate (j : Json) : Except String TechnicalSpecs := do
  let o ← asObj j
  let resolution ← vOptField vStr o "resolution"
  let fps ← vOptField vFloat o "fps"
  let audio_channels ← vOptField vInt o "audio_channels"
  return ⟨resolution, fps, audio_channels⟩

def FileInfo.model_validate (j : Json) : Except String FileInfo := do
  let o ← asObj j
  let video_id ← vOptField vStr o "video_id"
  let filename ← vOptField vStr o "filename"
  let processed_at ← vOptField vStr o "processed_at"
  let duration_seconds ← vOptField vFloat o "duration_seconds"
  let technical_specs ← vOptField TechnicalSpecs.model_validate o "technical_specs"
  return ⟨video_id, filename, processed_at, duration_seconds, technical_specs⟩

def GlobalAnalysis.model_validate (j : Json) : Except String GlobalAnalysis := do
  let o ← asObj j
  let title_detected ← vOptField vStr o "title_detected"
  let topics ← vListField vStr o "topics"
  let summary ← vOptField vStr o "summary"
  let overall_sentiment ← vOptField vStr o "overall_sentiment"
  let dominant_language ← vOptField vStr o "dominant_language"
  return ⟨title_detected, topics, summary, overall_sentiment, dominant_language⟩

def TimeRange.model_validate (j : Json) : Except String TimeRange := do
  let o ← asObj j
  let start ← vReqStr o "start"
  let e ← vReqStr o "end"
  return ⟨start, e⟩

def Classification.model_validate (j : Json) : Except String Classification := do
  let o ← asObj j
  let ty ← vOptField vStr o "type"
  let topic ← vOptField vStr o "topic"
  return ⟨ty, topic⟩

def VisualSubject.model_validate (j : Json) : Except String VisualSubject := do
  let o ← asObj j
  let label ← vOptField vStr o "label"
  let attributes ← vListField vStr o "attributes"
  let action ← vOptField vStr o "action"
  let emotion ← vOptField vStr o "emotion"
  return ⟨label, attributes, action, emotion⟩

def VisualAnalysis.model_validate (j : Json) : Except String VisualAnalysis := do
  let o ← asObj j
  let shot_type ← vOptField vStr o "shot_type"
  let camera_movement ← vOptField vStr o "camera_movement"
  let main_subjects ← vListField VisualSubject.model_validate o "main_subjects"
  let environment ← vOptField vStr o "environment"
  return ⟨shot_type, camera_movement, main_subjects, environment⟩

def AudioAnalysis.model_validate (j : Json) : Except String AudioAnalysis := do
  let o ← asObj j
  let transcript ← vOptField vStr o "transcript"
  let speaker_id ← vOptField vStr o "speaker_id"
  let bg_music ← vOptField vStr o "bg_music"
  let voice_intonation ← vOptField vStr o "voice_intonation"
  return ⟨transcript, speaker_id, bg_music, voice_intonation⟩

def TextExtractionOCR.model_validate (j : Json) : Except String TextExtractionOCR := do
  let o ← asObj j
  let visible_text ← vListField vStr o "visible_text"
  let programming_language ← vOptField vStr o "programming_language"
  return ⟨visible_text, programming_language⟩

def EngagementMechanics.model_validate (j : Json) : Except String EngagementMechanics := do
  let o ← asObj j
  let is_hook ← vBoolFieldFalse o "is_hook"
  let tac ← vOptField vStr o "tactic"
  let psychological_trigger ← vOptField vStr o "psychological_trigger"
  return ⟨is_hook, tac, psychological_trigger⟩

def IRReconstruction.model_validate (j : Json) : Except String IRReconstruction := do
  let o ← asObj j
  let abstract_concept ← vOptField vStr o "abstract_concept"
  let generative_prompt ← vOptField vStr o "generative_prompt"
  return ⟨abstract_concept, generative_prompt⟩

/-- `GlobalViralityAnalysis._coerce_target_audience` (mode="before"):
convert a list to a comma-separated string. -/
def GlobalViralityAnalysis.coerce_target_audience (v : Json) : Json :=
  match v with
  | .jarr xs => .jstr (String.intercalate ", " (xs.map pyStr))
  | _ => v

/-- The `target_audience` field: the before-validator runs whenever the key
is supplied, then `Optional[str]` validation. -/
def vTargetAudienceField (o : List (String × Json)) :
    Except String (Option String) :=
  match objGet o "target_audience" with
  | none => .ok none
  | some v =>
    match GlobalViralityAnalysis.coerce_target_audience v with
    | .null => .ok none
    | v2 => (vStr v2).map some

def GlobalViralityAnalysis.model_validate (j : Json) :
    Except String GlobalViralityAnalysis := do
  let o ← asObj j
  let virality_score ← vOptField vInt o "virality_score"
  let hook_strategy ← vOptField vStr o "hook_strategy"
  let target_audience ← vTargetAudienceField o
  let share_trigger ← vOptField vStr o "share_trigger"
  return ⟨virality_score, hook_strategy, target_audience, share_trigger⟩

/-! ### Time conversion (`_seconds_to_time_string`, `_convert_time_to_string`) -/

/-- Python `int()` truncation (toward zero) of a float. -/
def ratTrunc (q : Rat) : Int := if 0 ≤ q then ⌊q⌋ else ⌈q⌉

/-- Python `f"\x7bn:02d\x7d"`: zero-pad to width 2. -/
def f02d (n : Int) : String :=
  let s := toString n
  if s.length < 2 then "0" ++ s else s

/-- The string built by `_seconds_to_time_string` from `total_seconds`
(Python `//` is floor division and `%` a nonnegative remainder for positive
divisors, which is exactly `Int` `/` and `%` here, i.e. Euclidean division). -/
def formatSeconds (total_seconds : Int) : String :=
  let hours := total_seconds / 3600
  let minutes := (total_seconds % 3600) / 60
  let secs := total_seconds % 60
  if 0 < hours then f02d hours ++ ":" ++ f02d minutes ++ ":" ++ f02d secs
  else f02d minutes ++ ":" ++ f02d secs

/-- `_seconds_to_time_string`: strings pass through; ints and floats are
truncated with `int()` and formatted; anything else makes `int()` raise
(surfacing as a validation error).  A Python `bool` is an `int` (`int(True)
== 1`). -/
def seconds_to_time_string : Json → Except String String
  | .jstr s => .ok s
  | .jint n => .ok (formatSeconds n)
  | .jfloat q => .ok (formatSeconds (ratTrunc q))
  | .jbool b => .ok (formatSeconds (if b then 1 else 0))
  | _ => .error "int() argument must be a number, not list, dict or NoneType"

/-- `TimelineSegment._convert_time_to_string` (mode="before" on `start` and
`end`). -/
def convert_time_to_string : Json → Except String (Option String)
  | .null => .ok none
  | .jstr s => .ok (some s)
  | v => (seconds_to_time_string v).map some

/-- The `start`/`end` fields of a segment: before-validator then
`Optional[str]` (the validator already returns a string or `None`). -/
def vTimeField (o : List (String × Json)) (k : String) :
    Except String (Option String) :=
  match objGet o k with
  | none => .ok none
  | some v => convert_time_to_string v

/-! ### `TimelineSegment` validators -/

/-- `TimelineSegment._coerce_segment_id` (mode="before"): `None` stays
`None`, anything else becomes `str(v)`. -/
def coerce_segment_id : Json → Option String
  | .null => none
  | v => some (pyStr v)

/-- The `segment_id` field: the before-validator output is always a valid
`Optional[str]`, so this never fails. -/
def vSegmentIdField (o : List (String × Json)) : Except String (Option String) :=
  match objGet o "segment_id" with
  | none => .ok none
  | some v => .ok (coerce_segment_id v)

/-- `TimelineSegment._coerce_text_extraction_ocr` (mode="before"): `None`
stays, an empty list becomes `None`, a non-empty list is wrapped as
`\x7b"visible_text": v\x7d`, anything else passes through. -/
def coerce_text_extraction_ocr : Json → Json
  | .null => .null
  | .jarr [] => .null
  | .jarr xs => .jobj [("visible_text", .jarr xs)]
  | v => v

/-- The `text_extraction_ocr` field: before-validator then
`Optional[TextExtractionOCR]`. -/
def vOcrField (o : List (String × Json)) :
    Except String (Option TextExtractionOCR) :=
  match objGet o "text_extraction_ocr" with
  | none => .ok none
  | some v =>
    match coerce_text_extraction_ocr v with
    | .null => .ok none
    | v2 => (TextExtractionOCR.model_validate v2).map some

/-- `TimelineSegment._coerce_time_range` (mode="after"): synthesize the
nested `time_range` from top-level `start`/`end` when absent. -/
def TimelineSegment.coerce_time_range (s : TimelineSegment) : TimelineSegment :=
  match s.time_range, s.start, s.«end» with
  | none, some a, some b => { s with time_range := some ⟨a, b⟩ }
  | _, _, _ => s

def TimelineSegment.model_validate (j : Json) : Except String TimelineSegment := do
  let o ← asObj j
  let segment_id ← vSegmentIdField o
  let time_range ← vOptField TimeRange.model_validate o "time_range"
  let start ← vTimeField o "start"
  let e ← vTimeField o "end"
  let classification ← vOptField Classification.model_validate o "classification"
  let visual_analysis ← vOptField VisualAnalysis.model_validate o "visual_analysis"
  let audio_analysis ← vOptField AudioAnalysis.model_validate o "audio_analysis"
  let text_extraction_ocr ← vOcrField o
  let engagement_mechanics ← vOptField EngagementMechanics.model_validate o "engagement_mechanics"
  let ir_reconstruction ← vOptField IRReconstruction.model_validate o "ir_reconstruction"
  return TimelineSegment.coerce_time_range
    ⟨segment_id, time_range, start, e, classification, visual_analysis,
     audio_analysis, text_extraction_ocr, engagement_mechanics, ir_reconstruction⟩

def ExtractedAction.model_validate (j : Json) : Except String ExtractedAction := do
  let o ← asObj j
  let action ← vReqStr o "action"
  let timestamp ← vReqStr o "timestamp"
  return ⟨action, timestamp⟩

def ExtractedEntities.model_validate (j : Json) : Except String ExtractedEntities := do
  let o ← asObj j
  let actions_detected ← vListField ExtractedAction.model_validate o "actions_detected"
  let key_objects ← vListField vStr o "key_objects"
  let referenced_links ← vListField vStr o "referenced_links"
  return ⟨actions_detected, key_objects, referenced_links⟩

/-- `AnalysisResult.model_validate`: the coercer's entry point
(`coerce_and_validate` in the specification). -/
def AnalysisResult.model_validate (j : Json) : Except String AnalysisResult := do
  let o ← asObj j
  let file_info ← vOptField FileInfo.model_validate o "file_info"
  let global_analysis ← vOptField GlobalAnalysis.model_validate o "global_analysis"
  let global_virality ← vOptField GlobalViralityAnalysis.model_validate o "global_virality"
  let timeline_segments ← vListField TimelineSegment.model_validate o "timeline_segments"
  let extracted_entities ← vOptField ExtractedEntities.model_validate o "extracted_entities"
  return ⟨file_info, global_analysis, global_virality, timeline_segments, extracted_entities⟩

/-! ### Serialization (`model_dump`): the `to_json` direction

Pydantic's `model_dump` emits every field (including `None`s) in declaration
order; nested models become nested dicts, lists become lists. -/

def optDump {α : Type} (f : α → Json) : Option α → Json
  | none => .null
  | some x => f x

def optStrJson : Option String → Json := optDump Json.jstr

def optFloatJson : Option Rat → Json := optDump Json.jfloat

def optIntJson : Option Int → Json := optDump Json.jint

def strListJson (l : List String) : Json := .jarr (l.map Json.jstr)

def TechnicalSpecs.model_dump (x : TechnicalSpecs) : Json :=
  .jobj [("resolution", optStrJson x.resolution),
         ("fps", optFloatJson x.fps),
         ("audio_channels", optIntJson x.audio_channels)]

def FileInfo.model_dump (x : FileInfo) : Json :=
  .jobj [("video_id", optStrJson x.video_id),
         ("filename", optStrJson x.filename),
         ("processed_at", optStrJson x.processed_at),
         ("duration_seconds", optFloatJson x.duration_seconds),
         ("technical_specs", optDump TechnicalSpecs.model_dump x.technical_specs)]

def GlobalAnalysis.model_dump (x : GlobalAnalysis) : Json :=
  .jobj [("title_detected", optStrJson x.title_detected),
         ("topics", strListJson x.topics),
         ("summary", optStrJson x.summary),
         ("overall_sentiment", optStrJson x.overall_sentiment),
         ("dominant_language", optStrJson x.dominant_language)]

def TimeRange.model_dump (x : TimeRange) : Json :=
  .jobj [("start", .jstr x.start), ("end", .jstr x.«end»)]

def Classification.model_dump (x : Classification) : Json :=
  .jobj [("type", optStrJson x.type), ("topic", optStrJson x.topic)]

def VisualSubject.model_dump (x : VisualSubject) : Json :=
  .jobj [("label", optStrJson x.label),
         ("attributes", strListJson x.attributes),
         ("action", optStrJson x.action),
         ("emotion", optStrJson x.emotion)]

def VisualAnalysis.model_dump (x : VisualAnalysis) : Json :=
  .jobj [("shot_type", optStrJson x.shot_type),
         ("camera_movement", optStrJson x.camera_movement),
         ("main_subjects", .jarr (x.main_subjects.map VisualSubject.model_dump)),
         ("environment", optStrJson x.environment)]

def AudioAnalysis.model_dump (x : AudioAnalysis) : Json :=
  .jobj [("transcript", optStrJson x.transcript),
         ("speaker_id", optStrJson x.speaker_id),
         ("bg_music", optStrJson x.bg_music),
         ("voice_intonation", optStrJson x.voice_intonation)]

def TextExtractionOCR.model_dump (x : TextExtractionOCR) : Json :=
  .jobj [("visible_text", strListJson x.visible_text),
         ("programming_language", optStrJson x.programming_language)]

def EngagementMechanics.model_dump (x : EngagementMechanics) : Json :=
  .jobj [("is_hook", .jbool x.is_hook),
         ("tactic", optStrJson x.tactic),
         ("psychological_trigger", optStrJson x.psychological_trigger)]

def IRReconstruction.model_dump (x : IRReconstruction) : Json :=
  .jobj [("abstract_concept", optStrJson x.abstract_concept),
         ("generative_prompt", optStrJson x.generative_prompt)]

def GlobalViralityAnalysis.model_dump (x : GlobalViralityAnalysis) : Json :=
  .jobj [("virality_score", optIntJson x.virality_score),
         ("hook_strategy", optStrJson x.hook_strategy),
         ("target_audience", optStrJson x.target_audience),
         ("share_trigger", optStrJson x.share_trigger)]

def TimelineSegment.model_dump (x : TimelineSegment) : Json :=
  .jobj [("segment_id", optStrJson x.segment_id),
         ("time_range", optDump TimeRange.model_dump x.time_range),
         ("start", optStrJson x.start),
         ("end", optStrJson x.«end»),
         ("classification", optDump Classification.model_dump x.classification),
         ("visual_analysis", optDump VisualAnalysis.model_dump x.visual_analysis),
         ("audio_analysis", optDump AudioAnalysis.model_dump x.audio_analysis),
         ("text_extraction_ocr", optDump TextExtractionOCR.model_dump x.text_extraction_ocr),
         ("engagement_mechanics", optDump EngagementMechanics.model_dump x.engagement_mechanics),
         ("ir_reconstruction", optDump IRReconstruction.model_dump x.ir_reconstruction)]

def ExtractedAction.model_dump (x : ExtractedAction) : Json :=
  .jobj [("action", .jstr x.action), ("timestamp", .jstr x.timestamp)]

def ExtractedEntities.model_dump (x : ExtractedEntities) : Json :=
  .jobj [("actions_detected", .jarr (x.actions_detected.map ExtractedAction.model_dump)),
         ("key_objects", strListJson x.key_objects),
         ("referenced_links", strListJson x.referenced_links)]

def AnalysisResult.model_dump (x : AnalysisResult) : Json :=
  .jobj [("file_info", optDump FileInfo.model_dump x.file_info),
         ("global_analysis", optDump GlobalAnalysis.model_dump x.global_analysis),
         ("global_virality", optDump GlobalViralityAnalysis.model_dump x.global_virality),
         ("timeline_segments", .jarr (x.timeline_segments.map TimelineSegment.model_dump)),
         ("extracted_entities", optDump ExtractedEntities.model_dump x.extracted_entities)]

/-! ## Supporting lemmas -/

theorem except_bind_ok {α β : Type} {x : Except String α}
    {f : α → Except String β} {b : β} :
    (x >>= f) = .ok b ↔ ∃ a, x = .ok a ∧ f a = .ok b := by
  cases x <;> simp [Bind.bind, Except.bind]

theorem except_pure_eq {β : Type} {b : β} : (pure b : Except String β) = .ok b := rfl

theorem except_ok_bind {α β : Type} (a : α) (f : α → Except String β) :
    (Except.ok a >>= f) = f a := rfl

theorem vList_vStr_map (l : List String) :
    vList vStr (l.map Json.jstr) = .ok l := by
  induction l with
  | nil => rfl
  | cons x xs ih => simp [vList, vStr, ih, Bind.bind, Except.bind]

theorem pyStr_comp_jstr : pyStr ∘ Json.jstr = id := funext fun _ => rfl

theorem ocr_validate_wrapped (l : List String) :
    TextExtractionOCR.model_validate
      (.jobj [("visible_text", .jarr (l.map Json.jstr))]) = .ok ⟨l, none⟩ := by
  simp [TextExtractionOCR.model_validate, asObj, vListField, objGet,
    vOptField, vList_vStr_map, Bind.bind, Except.bind, pure, Except.pure]

/-! ## Claim C4: numeric seconds conversion -/

/-- The conversion rule as the specification words it: the truncated seconds
value is rendered `MM:SS` with zero-padded two-digit fields below 3600, and
`HH:MM:SS` once at least 3600. -/
def specSecondsFormat (t : Int) : String :=
  if 3600 ≤ t then
    f02d (t / 3600) ++ ":" ++ f02d ((t % 3600) / 60) ++ ":" ++ f02d (t % 60)
  else
    f02d ((t % 3600) / 60) ++ ":" ++ f02d (t % 60)

theorem formatSeconds_eq_spec (t : Int) : formatSeconds t = specSecondsFormat t := by
  unfold formatSeconds specSecondsFormat
  rcases le_or_lt 3600 t with h | h
  · rw [if_pos (by omega), if_pos h]
  · rw [if_neg (by omega), if_neg (by omega)]

/-- Claim C4: a numeric (int or float) top-level `start`/`end` seconds value
is converted, before validation, to the time string the specification
describes — `MM:SS` below 3600 (truncated), `HH:MM:SS` at or above 3600 —
with 125 s giving "02:05" and 3725 s giving "01:02:05"; a string input
passes through unchanged even if malformed. -/
theorem claim_C4 :
    (∀ n : Int, convert_time_to_string (.jint n) = .ok (some (specSecondsFormat n))) ∧
    (∀ q : Rat, convert_time_to_string (.jfloat q) =
      .ok (some (specSecondsFormat (ratTrunc q)))) ∧
    (∀ s : String, convert_time_to_string (.jstr s) = .ok (some s)) ∧
    convert_time_to_string (.jint 125) = .ok (some "02:05") ∧
    convert_time_to_string (.jint 3725) = .ok (some "01:02:05") := by
  refine ⟨fun n => ?_, fun q => ?_, fun s => rfl, rfl, rfl⟩
  · simp [convert_time_to_string, seconds_to_time_string, formatSeconds_eq_spec,
      Except.map]
  · simp [convert_time_to_string, seconds_to_time_string, formatSeconds_eq_spec,
      Except.map]

/-! ## Claim C7: on-screen-text normalization -/

/-- Claim C7: an on-screen-text field supplied as a non-empty list of
strings is wrapped into a `TextExtractionOCR` whose `visible_text` is that
list; an empty list normalizes to an absent field, not an empty object. -/
theorem claim_C7 :
    ∀ (o : List (String × Json)) (l : List String),
      objGet o "text_extraction_ocr" = some (.jarr (l.map Json.jstr)) →
      (l ≠ [] → vOcrField o = .ok (some ⟨l, none⟩)) ∧
      (l = [] → vOcrField o = .ok none) := by
  intro o l h
  constructor
  · intro hne
    obtain ⟨x, xs, rfl⟩ := List.exists_cons_of_ne_nil hne
    have hc : coerce_text_extraction_ocr (Json.jarr ((x :: xs).map Json.jstr)) =
        Json.jobj [("visible_text", Json.jarr ((x :: xs).map Json.jstr))] := rfl
    simp only [vOcrField, h, hc, ocr_validate_wrapped, Except.map]
  · rintro rfl
    simp [vOcrField, h, coerce_text_extraction_ocr]

/-- Witness for C7 at the specification's example: `["LOGIN", "PASSWORD"]`
wraps to `visible_text`, `[]` normalizes to absent. -/
theorem claim_C7_witness :
    vOcrField [("text_extraction_ocr", .jarr [.jstr "LOGIN", .jstr "PASSWORD"])] =
      .ok (some ⟨["LOGIN", "PASSWORD"], none⟩) ∧
    vOcrField [("text_extraction_ocr", .jarr [])] = .ok none := by
  refine ⟨(claim_C7 [("text_extraction_ocr",
      .jarr [.jstr "LOGIN", .jstr "PASSWORD"])] ["LOGIN", "PASSWORD"] rfl).1
      (by decide),
    (claim_C7 [("text_extraction_ocr", .jarr [])] [] rfl).2 rfl⟩

/-! ## Claim C8: target-audience flattening -/

/-- Claim C8: a `target_audience` supplied as a list of strings normalizes
to the single string joining the items with `", "`; a string value is kept
as-is. -/
theorem claim_C8 :
    (∀ (o : List (String × Json)) (items : List String),
      objGet o "target_audience" = some (.jarr (items.map Json.jstr)) →
      vTargetAudienceField o = .ok (some (String.intercalate ", " items))) ∧
    (∀ (o : List (String × Json)) (s : String),
      objGet o "target_audience" = some (.jstr s) →
      vTargetAudienceField o = .ok (some s)) := by
  constructor
  · intro o items h
    simp [vTargetAudienceField, h, GlobalViralityAnalysis.coerce_target_audience,
      pyStr_comp_jstr, vStr, Except.map]
  · intro o s h
    simp [vTargetAudienceField, h, GlobalViralityAnalysis.coerce_target_audience,
      vStr, Except.map]

/-- Witness for C8 at the specification's example. -/
theorem claim_C8_witness :
    vTargetAudienceField
      [("target_audience", .jarr [.jstr "Gen Z", .jstr "Tech Enthusiasts"])] =
      .ok (some "Gen Z, Tech Enthusiasts") := by
  exact claim_C8.1 [("target_audience",
    .jarr [.jstr "Gen Z", .jstr "Tech Enthusiasts"])] ["Gen Z", "Tech Enthusiasts"] rfl

/-! ## Claim C9: segment-identifier coercion -/

/-- Claim C9: a segment identifier supplied as a number validates to its
Python string representation (ints through `str(int)`, floats through the
float-repr model), and `null` stays `null`. -/
theorem claim_C9 :
    (∀ (o : List (String × Json)) (n : Int),
      objGet o "segment_id" = some (.jint n) →
      vSegmentIdField o = .ok (some (toString n))) ∧
    (∀ (o : List (String × Json)),
      objGet o "segment_id" = some .null →
      vSegmentIdField o = .ok none) ∧
    (∀ (o : List (String × Json)) (q : Rat),
      objGet o "segment_id" = some (.jfloat q) →
      vSegmentIdField o = .ok (some (floatStr q))) := by
  refine ⟨fun o n h => ?_, fun o h => ?_, fun o q h => ?_⟩ <;>
    simp [vSegmentIdField, h, coerce_segment_id, pyStr, pyRepr]

/-- Witness for C9 at the specification's example: integer `3` becomes the
string "3". -/
theorem claim_C9_witness :
    vSegmentIdField [("segment_id", .jint 3)] = .ok (some "3") := by
  exact claim_C9.1 [("segment_id", .jint 3)] 3 rfl

/-! ## Claim C1: validation of non-report payloads (corrected)

`AnalysisResult` sets no `model_config`, so pydantic's default
`extra="ignore"` applies: the extractor's error envelope, being a mapping
whose keys are simply unknown, validates to an empty report.  Only
non-mapping payloads are rejected. -/

/-- Counterexample to C1 as stated: the extractor's error envelope is
accepted by `AnalysisResult.model_validate`, which silently returns the
empty report instead of failing. -/
theorem claim_C1_counterexample :
    AnalysisResult.model_validate
      (.jobj [("error", .jstr "Invalid JSON output"),
              ("raw", .jstr "not json at all")]) =
      .ok ({} : AnalysisResult) := rfl

/-- Claim C1 (amended): every non-mapping JSON payload (null, boolean,
number, string, or list) fails validation with a schema error; but the
error envelope, being a mapping, is accepted — its unknown keys are
ignored and validation succeeds with the empty report. -/
theorem claim_C1_amended :
    (∀ v : Json, (∀ o, v ≠ .jobj o) → (AnalysisResult.model_validate v).isOk = false) ∧
    (∀ raw : String,
      AnalysisResult.model_validate
        (.jobj [("error", .jstr "Invalid JSON output"), ("raw", .jstr raw)]) =
        .ok ({} : AnalysisResult)) := by
  constructor
  · intro v h
    cases v
    case jobj o => exact absurd rfl (h o)
    all_goals rfl
  · intro raw
    rfl

/-- Witness for the amended C1: a bare string and a list are rejected. -/
theorem claim_C1_witness :
    (AnalysisResult.model_validate (.jstr "not json at all")).isOk = false ∧
    (AnalysisResult.model_validate (.jarr [])).isOk = false :=
  ⟨claim_C1_amended.1 _ (fun _ h => Json.noConfusion h),
   claim_C1_amended.1 _ (fun _ h => Json.noConfusion h)⟩

/-! ## Claim C2: the extractor never raises on malformed input -/

/-- Claim C2: whenever JSON parsing of the fence-stripped text fails, both
extractor functions return (rather than raise) the error envelope: a
mapping with the `error` marker and the fence-stripped input under `raw`. -/
theorem claim_C2 :
    ∀ s : String, json_loads (stripFences s) = none →
      parse_json_from_model_text s =
        .jobj [("error", .jstr "Invalid JSON output"),
               ("raw", .jstr (stripFences s))] ∧
      parse_json_safe s =
        .jobj [("error", .jstr "Invalid JSON output"),
               ("raw", .jstr (stripFences s))] := by
  intro s h
  constructor <;> simp only [parse_json_from_model_text, parse_json_safe, h]

/-- Witness for C2 at the specification's example and at the empty string. -/
theorem claim_C2_witness :
    parse_json_from_model_text "not json at all" =
      .jobj [("error", .jstr "Invalid JSON output"),
             ("raw", .jstr "not json at all")] ∧
    parse_json_from_model_text "" =
      .jobj [("error", .jstr "Invalid JSON output"), ("raw", .jstr "")] :=
  ⟨(claim_C2 "not json at all" rfl).1, (claim_C2 "" rfl).1⟩

/-! ## Claim C10: single-line fenced input (corrected)

When the trimmed input starts with a fence but has no newline, the code
skips the first-line drop (`find` returned `-1`) but still runs the
trailing-fence branch, so the trailing fence IS stripped while the leading
backticks remain; parsing then fails on the leading backticks. -/

theorem dropWhile_append_singleton (p : Char → Bool) (c : Char)
    (h : p c = false) (xs : List Char) :
    (xs ++ [c]).dropWhile p = xs.dropWhile p ++ [c] := by
  induction xs with
  | nil => simp [List.dropWhile, h]
  | cons x xs ih =>
    by_cases hx : p x
    · simp [List.dropWhile, hx, ih]
    · simp [List.dropWhile, hx]

theorem rdropWhile_cons_head (p : Char → Bool) (c : Char) (r : List Char)
    (h : p c = false) :
    ∃ m, List.rdropWhile p (c :: r) = c :: m := by
  have hne : List.rdropWhile p (c :: r) ≠ [] := by
    rw [ne_eq, List.rdropWhile_eq_nil_iff]
    intro hall
    rw [hall c (by simp)] at h
    cases h
  obtain ⟨t, ht⟩ := List.rdropWhile_prefix p (c :: r)
  match hm : List.rdropWhile p (c :: r) with
  | [] => exact absurd hm hne
  | a :: m =>
    rw [hm] at ht
    injection ht with h1 _
    exact ⟨m, by rw [h1]⟩

theorem trimJsonWs_cons_head (c : Char) (r : List Char)
    (h : isJsonWs c = false) :
    ∃ m, trimJsonWs (c :: r) = c :: m := by
  unfold trimJsonWs
  rw [List.dropWhile_cons_of_neg (by simp [h])]
  exact rdropWhile_cons_head isJsonWs c r h

theorem parseValue_backtick (f : Nat) (r : List Char) :
    parseValue f ('\x60' :: r) = none := by
  cases f with
  | zero => rfl
  | succ f => simp [parseValue, isDigitCh, digitChars]

theorem jsonLoadsChars_backtick_or_nil (l : List Char)
    (h : l = [] ∨ l.head? = some '\x60') : jsonLoadsChars l = none := by
  rcases h with rfl | h
  · rfl
  · match l, h with
    | c :: r, h =>
      have hc : c = '\x60' := by simpa using h
      subst hc
      obtain ⟨m, hm⟩ := trimJsonWs_cons_head '\x60' r (by decide)
      simp [jsonLoadsChars, hm, parseValue_backtick]

theorem stripFences_no_newline (s : String)
    (hf : startsFence (stripPy s.data) = true)
    (hn : afterFirstNL (stripPy s.data) = none) :
    stripFencesChars s.data =
      (if endsFence (rstripPy (stripPy s.data)) then
        dropLast3 (rstripPy (stripPy s.data))
      else stripPy s.data) := by
  simp only [stripFencesChars, hf, hn, if_true]

theorem stripFencesChars_no_newline_head (s : String)
    (hf : startsFence (stripPy s.data) = true)
    (hn : afterFirstNL (stripPy s.data) = none) :
    stripFencesChars s.data = [] ∨
      (stripFencesChars s.data).head? = some '\x60' := by
  rw [stripFences_no_newline s hf hn]
  have hA : ∃ rest, stripPy s.data = '\x60' :: rest := by
    match hA : stripPy s.data with
    | '\x60' :: rest => exact ⟨rest, rfl⟩
    | [] => rw [hA] at hf; cases hf
    | c :: rest =>
      rw [hA] at hf
      unfold startsFence at hf
      split at hf
      · rename_i heq
        injection heq with h1 h2
        exact ⟨_, by rw [h1]⟩
      · cases hf
  obtain ⟨rest, hA⟩ := hA
  by_cases he : endsFence (rstripPy (stripPy s.data))
  · rw [if_pos he, hA]
    obtain ⟨m, hm⟩ := rdropWhile_cons_head isPyWs '\x60' rest (by decide)
    rw [show rstripPy ('\x60' :: rest) = '\x60' :: m from hm]
    unfold dropLast3 List.rdrop
    match m with
    | [] => left; rfl
    | [a] => left; rfl
    | [a, b] => left; rfl
    | a :: b :: c :: m' =>
      right
      simp only [List.length_cons]
      have h4 : m'.length + 1 + 1 + 1 + 1 - 3 = m'.length + 1 := by omega
      rw [h4]
      simp
  · rw [if_neg he, hA]
    right
    rfl

/-- Counterexample to C10 as stated: on the single-line fenced input the
code does strip the trailing fence (only first-line dropping is skipped),
so the raw text in the envelope is not the whole trimmed input. -/
theorem claim_C10_counterexample :
    parse_json_from_model_text "```json \x7b\"a\": 1\x7d```" =
      .jobj [("error", .jstr "Invalid JSON output"),
             ("raw", .jstr "```json \x7b\"a\": 1\x7d")] ∧
    ("```json \x7b\"a\": 1\x7d" : String) ≠ "```json \x7b\"a\": 1\x7d```" := by
  exact ⟨rfl, by decide⟩

/-- Claim C10 (amended): if the trimmed input begins with a fence but has no
newline, the first-line drop is skipped, so parsing is attempted on text
still carrying the leading backticks and fails into the error envelope —
but the trailing-fence strip still runs, so the envelope's raw text is the
trimmed input with a trailing fence (after trailing whitespace) removed
when present, not necessarily the trimmed input itself. -/
theorem claim_C10_amended :
    ∀ s : String,
      startsFence (stripPy s.data) = true →
      afterFirstNL (stripPy s.data) = none →
      parse_json_from_model_text s =
        .jobj [("error", .jstr "Invalid JSON output"),
               ("raw", .jstr (stripFences s))] ∧
      stripFencesChars s.data =
        (if endsFence (rstripPy (stripPy s.data)) then
          dropLast3 (rstripPy (stripPy s.data))
        else stripPy s.data) := by
  intro s hf hn
  refine ⟨?_, stripFences_no_newline s hf hn⟩
  have hnone : json_loads (stripFences s) = none := by
    have hh := stripFencesChars_no_newline_head s hf hn
    show jsonLoadsChars (stripFences s).data = none
    have hdata : (stripFences s).data = stripFencesChars s.data := rfl
    rw [hdata]
    exact jsonLoadsChars_backtick_or_nil _ hh
  simp only [parse_json_from_model_text, hnone]

/-- Witness for the amended C10 at the claim's example input. -/
theorem claim_C10_witness :
    parse_json_from_model_text "```json \x7b\"a\": 1\x7d```" =
      .jobj [("error", .jstr "Invalid JSON output"),
             ("raw", .jstr "```json \x7b\"a\": 1\x7d")] := by
  exact (claim_C10_amended "```json \x7b\"a\": 1\x7d```" rfl rfl).1

/-! ## Claim C5: time-representation unification -/

/-- Inversion of `TimelineSegment.model_validate`: a successful validation
comes from a mapping, field by field, with `_coerce_time_range` applied to
the assembled segment. -/
theorem TimelineSegment.validate_ok_inv {j : Json} {seg : TimelineSegment}
    (hv : TimelineSegment.model_validate j = .ok seg) :
    ∃ o sid tr st en cl va aa ocr em ir,
      j = .jobj o ∧
      vSegmentIdField o = .ok sid ∧
      vOptField TimeRange.model_validate o "time_range" = .ok tr ∧
      vTimeField o "start" = .ok st ∧
      vTimeField o "end" = .ok en ∧
      vOptField Classification.model_validate o "classification" = .ok cl ∧
      vOptField VisualAnalysis.model_validate o "visual_analysis" = .ok va ∧
      vOptField AudioAnalysis.model_validate o "audio_analysis" = .ok aa ∧
      vOcrField o = .ok ocr ∧
      vOptField EngagementMechanics.model_validate o "engagement_mechanics" = .ok em ∧
      vOptField IRReconstruction.model_validate o "ir_reconstruction" = .ok ir ∧
      seg = TimelineSegment.coerce_time_range
        ⟨sid, tr, st, en, cl, va, aa, ocr, em, ir⟩ := by
  cases j
  case' jobj o =>
    simp only [TimelineSegment.model_validate, asObj, except_ok_bind] at hv
    rw [except_bind_ok] at hv
    obtain ⟨sid, hsid, hv⟩ := hv
    rw [except_bind_ok] at hv
    obtain ⟨tr, htr, hv⟩ := hv
    rw [except_bind_ok] at hv
    obtain ⟨st, hst, hv⟩ := hv
    rw [except_bind_ok] at hv
    obtain ⟨en, hen, hv⟩ := hv
    rw [except_bind_ok] at hv
    obtain ⟨cl, hcl, hv⟩ := hv
    rw [except_bind_ok] at hv
    obtain ⟨va, hva, hv⟩ := hv
    rw [except_bind_ok] at hv
    obtain ⟨aa, haa, hv⟩ := hv
    rw [except_bind_ok] at hv
    obtain ⟨ocr, hocr, hv⟩ := hv
    rw [except_bind_ok] at hv
    obtain ⟨em, hem, hv⟩ := hv
    rw [except_bind_ok] at hv
    obtain ⟨ir, hir, hv⟩ := hv
    injection hv with hseg
    exact ⟨o, sid, tr, st, en, cl, va, aa, ocr, em, ir, rfl, hsid, htr, hst,
      hen, hcl, hva, haa, hocr, hem, hir, hseg.symm⟩
  all_goals simp [TimelineSegment.model_validate, asObj, Bind.bind, Except.bind] at hv

/-- Claim C5: with top-level `start`/`end` and no nested `time_range`, the
validated segment's `time_range` is synthesized from the two converted
values; a supplied nested `time_range` is kept unchanged. -/
theorem claim_C5 :
    (∀ (o : List (String × Json)) (seg : TimelineSegment) (js je : Json)
        (a b : String),
      (objGet o "time_range" = none ∨ objGet o "time_range" = some .null) →
      objGet o "start" = some js →
      objGet o "end" = some je →
      convert_time_to_string js = .ok (some a) →
      convert_time_to_string je = .ok (some b) →
      TimelineSegment.model_validate (.jobj o) = .ok seg →
      seg.time_range = some ⟨a, b⟩ ∧ seg.start = some a ∧ seg.«end» = some b) ∧
    (∀ (o : List (String × Json)) (seg : TimelineSegment) (jtr : Json)
        (tr : TimeRange),
      objGet o "time_range" = some jtr →
      TimeRange.model_validate jtr = .ok tr →
      TimelineSegment.model_validate (.jobj o) = .ok seg →
      seg.time_range = some tr) := by
  constructor
  · intro o seg js je a b h_tr hs he hcs hce hv
    obtain ⟨o', sid, tr, st, en, cl, va, aa, ocr, em, ir, hj, hsid, htr, hst,
      hen, hcl, hva, haa, hocr, hem, hir, hseg⟩ := TimelineSegment.validate_ok_inv hv
    injection hj with ho
    subst ho
    have htr' : tr = none := by
      rcases h_tr with h | h <;> simp [vOptField, h] at htr <;> exact htr.symm
    have hst' : st = some a := by
      simp only [vTimeField, hs, hcs] at hst
      injection hst with h
      exact h.symm
    have hen' : en = some b := by
      simp only [vTimeField, he, hce] at hen
      injection hen with h
      exact h.symm
    subst htr' hst' hen' hseg
    simp [TimelineSegment.coerce_time_range]
  · intro o seg jtr tr h_tr hvr hv
    obtain ⟨o', sid, trv, st, en, cl, va, aa, ocr, em, ir, hj, hsid, htr, hst,
      hen, hcl, hva, haa, hocr, hem, hir, hseg⟩ := TimelineSegment.validate_ok_inv hv
    injection hj with ho
    subst ho
    have htr' : trv = some tr := by
      simp only [vOptField, h_tr] at htr
      cases jtr <;>
        simp only [Except.map, hvr] at htr <;>
        first
        | (injection htr with h; exact h.symm)
        | (simp [TimeRange.model_validate, asObj, Bind.bind, Except.bind] at hvr)
    subst htr' hseg
    rcases st with _ | sa <;> rcases en with _ | ea <;>
      simp [TimelineSegment.coerce_time_range]

/-- Witness for C5 at the specification's example: numeric `start=125`,
`end=140` with no nested range synthesizes `\x7bstart: "02:05", end:
"02:20"\x7d`; a supplied nested range is kept verbatim. -/
theorem claim_C5_witness :
    (TimelineSegment.model_validate
        (.jobj [("start", .jint 125), ("end", .jint 140)])).map
      (fun seg => seg.time_range) = .ok (some ⟨"02:05", "02:20"⟩) ∧
    (TimelineSegment.model_validate
        (.jobj [("time_range",
          .jobj [("start", .jstr "00:07"), ("end", .jstr "00:09")]),
          ("start", .jstr "55:55"), ("end", .jstr "56:56")])).map
      (fun seg => seg.time_range) = .ok (some ⟨"00:07", "00:09"⟩) := by
  constructor
  · have hv : TimelineSegment.model_validate
        (.jobj [("start", .jint 125), ("end", .jint 140)]) =
        .ok ⟨none, some ⟨"02:05", "02:20"⟩, some "02:05", some "02:20",
          none, none, none, none, none, none⟩ := rfl
    have h := (claim_C5.1 [("start", .jint 125), ("end", .jint 140)] _
      (Json.jint 125) (Json.jint 140) "02:05" "02:20" (Or.inl rfl) rfl rfl
      rfl rfl hv).1
    rw [hv]
    simp only [Except.map, h]
  · have hv : TimelineSegment.model_validate
        (.jobj [("time_range",
          .jobj [("start", .jstr "00:07"), ("end", .jstr "00:09")]),
          ("start", .jstr "55:55"), ("end", .jstr "56:56")]) =
        .ok ⟨none, some ⟨"00:07", "00:09"⟩, some "55:55", some "56:56",
          none, none, none, none, none, none⟩ := rfl
    have h := claim_C5.2
      [("time_range", .jobj [("start", .jstr "00:07"), ("end", .jstr "00:09")]),
       ("start", .jstr "55:55"), ("end", .jstr "56:56")] _
      (Json.jobj [("start", .jstr "00:07"), ("end", .jstr "00:09")])
      ⟨"00:07", "00:09"⟩ rfl rfl hv
    rw [hv]
    simp only [Except.map, h]

/-! ## Claim C6: idempotence of validation (round-trip lemmas) -/

theorem vOptField_eq_of_get {α : Type} {f : Json → Except String α}
    {o : List (String × Json)} {k : String} {v : Json}
    (h : objGet o k = some v) (hv : v ≠ Json.null) :
    vOptField f o k = (f v).map some := by
  simp only [vOptField, h]

theorem vOptField_dump {α : Type} (f : Json → Except String α) (g : α → Json)
    (hfg : ∀ a, f (g a) = .ok a) (hnn : ∀ a, g a ≠ Json.null)
    (o : List (String × Json)) (k : String) (v : Option α)
    (h : objGet o k = some (optDump g v)) : vOptField f o k = .ok v := by
  cases v with
  | none => simp [vOptField, h, optDump]
  | some a =>
    have h' : objGet o k = some (g a) := h
    rw [vOptField_eq_of_get h' (hnn a), hfg a]
    rfl

theorem vOptField_dump_str (o : List (String × Json)) (k : String)
    (v : Option String) (h : objGet o k = some (optStrJson v)) :
    vOptField vStr o k = .ok v :=
  vOptField_dump vStr Json.jstr (fun _ => rfl) (fun _ h' => Json.noConfusion h') o k v h

theorem vOptField_dump_float (o : List (String × Json)) (k : String)
    (v : Option Rat) (h : objGet o k = some (optFloatJson v)) :
    vOptField vFloat o k = .ok v :=
  vOptField_dump vFloat Json.jfloat (fun _ => rfl) (fun _ h' => Json.noConfusion h') o k v h

theorem vOptField_dump_int (o : List (String × Json)) (k : String)
    (v : Option Int) (h : objGet o k = some (optIntJson v)) :
    vOptField vInt o k = .ok v :=
  vOptField_dump vInt Json.jint (fun _ => rfl) (fun _ h' => Json.noConfusion h') o k v h

theorem vList_dump {α : Type} (f : Json → Except String α) (g : α → Json)
    (hfg : ∀ a, f (g a) = .ok a) (l : List α) :
    vList f (l.map g) = .ok l := by
  induction l with
  | nil => rfl
  | cons x xs ih =>
    simp [vList, hfg x, ih, Bind.bind, Except.bind, pure, Except.pure]

theorem vListField_dump {α : Type} (f : Json → Except String α) (g : α → Json)
    (hfg : ∀ a, f (g a) = .ok a) (o : List (String × Json)) (k : String)
    (l : List α) (h : objGet o k = some (.jarr (l.map g))) :
    vListField f o k = .ok l := by
  simp only [vListField, h]
  exact vList_dump f g hfg l

theorem vListField_dump_str (o : List (String × Json)) (k : String)
    (l : List String) (h : objGet o k = some (strListJson l)) :
    vListField vStr o k = .ok l :=
  vListField_dump vStr Json.jstr (fun _ => rfl) o k l h

theorem vListField_of_get {α : Type} {f : Json → Except String α}
    {o : List (String × Json)} {k : String} {xs : List Json} {as : List α}
    (h : objGet o k = some (.jarr xs)) (hl : vList f xs = .ok as) :
    vListField f o k = .ok as := by
  simp only [vListField, h]
  exact hl

theorem vBoolField_dump (o : List (String × Json)) (k : String) (b : Bool)
    (h : objGet o k = some (.jbool b)) : vBoolFieldFalse o k = .ok b := by
  simp [vBoolFieldFalse, h, vBool]

theorem technicalSpecs_roundtrip (x : TechnicalSpecs) :
    TechnicalSpecs.model_validate x.model_dump = .ok x := by
  simp only [TechnicalSpecs.model_validate, TechnicalSpecs.model_dump, asObj,
    except_ok_bind]
  rw [except_bind_ok]
  refine ⟨x.resolution, vOptField_dump_str _ _ _ rfl, ?_⟩
  rw [except_bind_ok]
  refine ⟨x.fps, vOptField_dump_float _ _ _ rfl, ?_⟩
  rw [except_bind_ok]
  refine ⟨x.audio_channels, vOptField_dump_int _ _ _ rfl, ?_⟩
  rfl

theorem fileInfo_roundtrip (x : FileInfo) :
    FileInfo.model_validate x.model_dump = .ok x := by
  simp only [FileInfo.model_validate, FileInfo.model_dump, asObj, except_ok_bind]
  rw [except_bind_ok]
  refine ⟨x.video_id, vOptField_dump_str _ _ _ rfl, ?_⟩
  rw [except_bind_ok]
  refine ⟨x.filename, vOptField_dump_str _ _ _ rfl, ?_⟩
  rw [except_bind_ok]
  refine ⟨x.processed_at, vOptField_dump_str _ _ _ rfl, ?_⟩
  rw [except_bind_ok]
  refine ⟨x.duration_seconds, vOptField_dump_float _ _ _ rfl, ?_⟩
  rw [except_bind_ok]
  refine ⟨x.technical_specs, vOptField_dump TechnicalSpecs.model_validate
    TechnicalSpecs.model_dump technicalSpecs_roundtrip
    (fun _ h' => Json.noConfusion h') _ _ _ rfl, ?_⟩
  rfl

theorem globalAnalysis_roundtrip (x : GlobalAnalysis) :
    GlobalAnalysis.model_validate x.model_dump = .ok x := by
  simp only [GlobalAnalysis.model_validate, GlobalAnalysis.model_dump, asObj,
    except_ok_bind]
  rw [except_bind_ok]
  refine ⟨x.title_detected, vOptField_dump_str _ _ _ rfl, ?_⟩
  rw [except_bind_ok]
  refine ⟨x.topics, vListField_dump_str _ _ _ rfl, ?_⟩
  rw [except_bind_ok]
  refine ⟨x.summary, vOptField_dump_str _ _ _ rfl, ?_⟩
  rw [except_bind_ok]
  refine ⟨x.overall_sentiment, vOptField_dump_str _ _ _ rfl, ?_⟩
  rw [except_bind_ok]
  refine ⟨x.dominant_language, vOptField_dump_str _ _ _ rfl, ?_⟩
  rfl

theorem timeRange_roundtrip (x : TimeRange) :
    TimeRange.model_validate x.model_dump = .ok x := rfl

theorem classification_roundtrip (x : Classification) :
    Classification.model_validate x.model_dump = .ok x := by
  simp only [Classification.model_validate, Classification.model_dump, asObj,
    except_ok_bind]
  rw [except_bind_ok]
  refine ⟨x.type, vOptField_dump_str _ _ _ rfl, ?_⟩
  rw [except_bind_ok]
  refine ⟨x.topic, vOptField_dump_str _ _ _ rfl, ?_⟩
  rfl

theorem visualSubject_roundtrip (x : VisualSubject) :
    VisualSubject.model_validate x.model_dump = .ok x := by
  simp only [VisualSubject.model_validate, VisualSubject.model_dump, asObj,
    except_ok_bind]
  rw [except_bind_ok]
  refine ⟨x.label, vOptField_dump_str _ _ _ rfl, ?_⟩
  rw [except_bind_ok]
  refine ⟨x.attributes, vListField_dump_str _ _ _ rfl, ?_⟩
  rw [except_bind_ok]
  refine ⟨x.action, vOptField_dump_str _ _ _ rfl, ?_⟩
  rw [except_bind_ok]
  refine ⟨x.emotion, vOptField_dump_str _ _ _ rfl, ?_⟩
  rfl

theorem visualAnalysis_roundtrip (x : VisualAnalysis) :
    VisualAnalysis.model_validate x.model_dump = .ok x := by
  simp only [VisualAnalysis.model_validate, VisualAnalysis.model_dump, asObj,
    except_ok_bind]
  rw [except_bind_ok]
  refine ⟨x.shot_type, vOptField_dump_str _ _ _ rfl, ?_⟩
  rw [except_bind_ok]
  refine ⟨x.camera_movement, vOptField_dump_str _ _ _ rfl, ?_⟩
  rw [except_bind_ok]
  refine ⟨x.main_subjects, vListField_dump VisualSubject.model_validate
    VisualSubject.model_dump visualSubject_roundtrip _ _ _ rfl, ?_⟩
  rw [except_bind_ok]
  refine ⟨x.environment, vOptField_dump_str _ _ _ rfl, ?_⟩
  rfl

theorem audioAnalysis_roundtrip (x : AudioAnalysis) :
    AudioAnalysis.model_validate x.model_dump = .ok x := by
  simp only [AudioAnalysis.model_validate, AudioAnalysis.model_dump, asObj,
    except_ok_bind]
  rw [except_bind_ok]
  refine ⟨x.transcript, vOptField_dump_str _ _ _ rfl, ?_⟩
  rw [except_bind_ok]
  refine ⟨x.speaker_id, vOptField_dump_str _ _ _ rfl, ?_⟩
  rw [except_bind_ok]
  refine ⟨x.bg_music, vOptField_dump_str _ _ _ rfl, ?_⟩
  rw [except_bind_ok]
  refine ⟨x.voice_intonation, vOptField_dump_str _ _ _ rfl, ?_⟩
  rfl

theorem textExtractionOCR_roundtrip (x : TextExtractionOCR) :
    TextExtractionOCR.model_validate x.model_dump = .ok x := by
  simp only [TextExtractionOCR.model_validate, TextExtractionOCR.model_dump,
    asObj, except_ok_bind]
  rw [except_bind_ok]
  refine ⟨x.visible_text, vListField_dump_str _ _ _ rfl, ?_⟩
  rw [except_bind_ok]
  refine ⟨x.programming_language, vOptField_dump_str _ _ _ rfl, ?_⟩
  rfl

theorem engagementMechanics_roundtrip (x : EngagementMechanics) :
    EngagementMechanics.model_validate x.model_dump = .ok x := by
  simp only [EngagementMechanics.model_validate, EngagementMechanics.model_dump,
    asObj, except_ok_bind]
  rw [except_bind_ok]
  refine ⟨x.is_hook, vBoolField_dump _ _ _ rfl, ?_⟩
  rw [except_bind_ok]
  refine ⟨x.tactic, vOptField_dump_str _ _ _ rfl, ?_⟩
  rw [except_bind_ok]
  refine ⟨x.psychological_trigger, vOptField_dump_str _ _ _ rfl, ?_⟩
  rfl

theorem irReconstruction_roundtrip (x : IRReconstruction) :
    IRReconstruction.model_validate x.model_dump = .ok x := by
  simp only [IRReconstruction.model_validate, IRReconstruction.model_dump, asObj,
    except_ok_bind]
  rw [except_bind_ok]
  refine ⟨x.abstract_concept, vOptField_dump_str _ _ _ rfl, ?_⟩
  rw [except_bind_ok]
  refine ⟨x.generative_prompt, vOptField_dump_str _ _ _ rfl, ?_⟩
  rfl

theorem vTargetAudienceField_dump (o : List (String × Json)) (v : Option String)
    (h : objGet o "target_audience" = some (optStrJson v)) :
    vTargetAudienceField o = .ok v := by
  cases v with
  | none =>
    simp [vTargetAudienceField, h, optStrJson, optDump,
      GlobalViralityAnalysis.coerce_target_audience]
  | some s =>
    simp [vTargetAudienceField, h, optStrJson, optDump,
      GlobalViralityAnalysis.coerce_target_audience, vStr, Except.map]

theorem globalVirality_roundtrip (x : GlobalViralityAnalysis) :
    GlobalViralityAnalysis.model_validate x.model_dump = .ok x := by
  simp only [GlobalViralityAnalysis.model_validate,
    GlobalViralityAnalysis.model_dump, asObj, except_ok_bind]
  rw [except_bind_ok]
  refine ⟨x.virality_score, vOptField_dump_int _ _ _ rfl, ?_⟩
  rw [except_bind_ok]
  refine ⟨x.hook_strategy, vOptField_dump_str _ _ _ rfl, ?_⟩
  rw [except_bind_ok]
  refine ⟨x.target_audience, vTargetAudienceField_dump _ _ rfl, ?_⟩
  rw [except_bind_ok]
  refine ⟨x.share_trigger, vOptField_dump_str _ _ _ rfl, ?_⟩
  rfl

theorem vSegmentIdField_dump (o : List (String × Json)) (v : Option String)
    (h : objGet o "segment_id" = some (optStrJson v)) :
    vSegmentIdField o = .ok v := by
  cases v with
  | none => simp [vSegmentIdField, h, optStrJson, optDump, coerce_segment_id]
  | some s =>
    simp [vSegmentIdField, h, optStrJson, optDump, coerce_segment_id, pyStr]

theorem vTimeField_dump (o : List (String × Json)) (k : String)
    (v : Option String) (h : objGet o k = some (optStrJson v)) :
    vTimeField o k = .ok v := by
  cases v with
  | none => simp [vTimeField, h, optStrJson, optDump, convert_time_to_string]
  | some s => simp [vTimeField, h, optStrJson, optDump, convert_time_to_string]

theorem vOcrField_dump (o : List (String × Json)) (v : Option TextExtractionOCR)
    (h : objGet o "text_extraction_ocr" =
      some (optDump TextExtractionOCR.model_dump v)) :
    vOcrField o = .ok v := by
  cases v with
  | none => simp [vOcrField, h, optDump, coerce_text_extraction_ocr]
  | some t =>
    have h' : objGet o "text_extraction_ocr" =
        some (Json.jobj [("visible_text", strListJson t.visible_text),
          ("programming_language", optStrJson t.programming_language)]) := h
    simp only [vOcrField, h', coerce_text_extraction_ocr]
    have hrt := textExtractionOCR_roundtrip t
    simp only [TextExtractionOCR.model_dump] at hrt
    simp only [hrt, Except.map]

theorem timelineSegment_dump_validate (x : TimelineSegment) :
    TimelineSegment.model_validate x.model_dump = .ok x.coerce_time_range := by
  simp only [TimelineSegment.model_validate, TimelineSegment.model_dump, asObj,
    except_ok_bind]
  rw [except_bind_ok]
  refine ⟨x.segment_id, vSegmentIdField_dump _ _ rfl, ?_⟩
  rw [except_bind_ok]
  refine ⟨x.time_range, vOptField_dump TimeRange.model_validate
    TimeRange.model_dump timeRange_roundtrip
    (fun _ h' => Json.noConfusion h') _ _ _ rfl, ?_⟩
  rw [except_bind_ok]
  refine ⟨x.start, vTimeField_dump _ _ _ rfl, ?_⟩
  rw [except_bind_ok]
  refine ⟨x.«end», vTimeField_dump _ _ _ rfl, ?_⟩
  rw [except_bind_ok]
  refine ⟨x.classification, vOptField_dump Classification.model_validate
    Classification.model_dump classification_roundtrip
    (fun _ h' => Json.noConfusion h') _ _ _ rfl, ?_⟩
  rw [except_bind_ok]
  refine ⟨x.visual_analysis, vOptField_dump VisualAnalysis.model_validate
    VisualAnalysis.model_dump visualAnalysis_roundtrip
    (fun _ h' => Json.noConfusion h') _ _ _ rfl, ?_⟩
  rw [except_bind_ok]
  refine ⟨x.audio_analysis, vOptField_dump AudioAnalysis.model_validate
    AudioAnalysis.model_dump audioAnalysis_roundtrip
    (fun _ h' => Json.noConfusion h') _ _ _ rfl, ?_⟩
  rw [except_bind_ok]
  refine ⟨x.text_extraction_ocr, vOcrField_dump _ _ rfl, ?_⟩
  rw [except_bind_ok]
  refine ⟨x.engagement_mechanics, vOptField_dump EngagementMechanics.model_validate
    EngagementMechanics.model_dump engagementMechanics_roundtrip
    (fun _ h' => Json.noConfusion h') _ _ _ rfl, ?_⟩
  rw [except_bind_ok]
  refine ⟨x.ir_reconstruction, vOptField_dump IRReconstruction.model_validate
    IRReconstruction.model_dump irReconstruction_roundtrip
    (fun _ h' => Json.noConfusion h') _ _ _ rfl, ?_⟩
  rfl

theorem coerce_time_range_idem (s : TimelineSegment) :
    s.coerce_time_range.coerce_time_range = s.coerce_time_range := by
  obtain ⟨sid, tr, st, en, cl, va, aa, ocr, em, ir⟩ := s
  rcases tr with _ | tr <;> rcases st with _ | a <;> rcases en with _ | b <;>
    simp [TimelineSegment.coerce_time_range]

theorem validate_seg_fixed {j : Json} {seg : TimelineSegment}
    (hv : TimelineSegment.model_validate j = .ok seg) :
    seg.coerce_time_range = seg := by
  obtain ⟨o, sid, tr, st, en, cl, va, aa, ocr, em, ir, hj, _, _, _, _, _, _, _,
    _, _, _, hseg⟩ := TimelineSegment.validate_ok_inv hv
  rw [hseg, coerce_time_range_idem]

theorem vList_mem_ok {α : Type} (f : Json → Except String α) :
    ∀ {xs : List Json} {as : List α}, vList f xs = .ok as →
      ∀ a ∈ as, ∃ j, f j = .ok a := by
  intro xs
  induction xs with
  | nil =>
    intro as h a ha
    simp only [vList] at h
    injection h with h
    subst h
    cases ha
  | cons x xs ih =>
    intro as h a ha
    simp only [vList] at h
    rw [except_bind_ok] at h
    obtain ⟨ax, hax, h⟩ := h
    rw [except_bind_ok] at h
    obtain ⟨asx, hasx, h⟩ := h
    injection h with h
    subst h
    rcases List.mem_cons.mp ha with rfl | ha
    · exact ⟨x, hax⟩
    · exact ih hasx a ha

theorem vList_seg_dump (segs : List TimelineSegment)
    (hfix : ∀ s ∈ segs, s.coerce_time_range = s) :
    vList TimelineSegment.model_validate
      (segs.map TimelineSegment.model_dump) = .ok segs := by
  induction segs with
  | nil => rfl
  | cons s ss ih =>
    simp only [List.map_cons, vList]
    rw [except_bind_ok]
    refine ⟨s, ?_, ?_⟩
    · rw [timelineSegment_dump_validate s, hfix s (by simp)]
    · rw [except_bind_ok]
      exact ⟨ss, ih (fun t ht => hfix t (by simp [ht])), rfl⟩

theorem extractedAction_roundtrip (x : ExtractedAction) :
    ExtractedAction.model_validate x.model_dump = .ok x := rfl

theorem extractedEntities_roundtrip (x : ExtractedEntities) :
    ExtractedEntities.model_validate x.model_dump = .ok x := by
  simp only [ExtractedEntities.model_validate, ExtractedEntities.model_dump,
    asObj, except_ok_bind]
  rw [except_bind_ok]
  refine ⟨x.actions_detected, vListField_dump ExtractedAction.model_validate
    ExtractedAction.model_dump extractedAction_roundtrip _ _ _ rfl, ?_⟩
  rw [except_bind_ok]
  refine ⟨x.key_objects, vListField_dump_str _ _ _ rfl, ?_⟩
  rw [except_bind_ok]
  refine ⟨x.referenced_links, vListField_dump_str _ _ _ rfl, ?_⟩
  rfl

/-- Inversion of `AnalysisResult.model_validate`. -/
theorem AnalysisResult.validate_ok_parts {j : Json} {r : AnalysisResult}
    (hv : AnalysisResult.model_validate j = .ok r) :
    ∃ o fi ga gv segs ee,
      j = .jobj o ∧
      vOptField FileInfo.model_validate o "file_info" = .ok fi ∧
      vOptField GlobalAnalysis.model_validate o "global_analysis" = .ok ga ∧
      vOptField GlobalViralityAnalysis.model_validate o "global_virality" = .ok gv ∧
      vListField TimelineSegment.model_validate o "timeline_segments" = .ok segs ∧
      vOptField ExtractedEntities.model_validate o "extracted_entities" = .ok ee ∧
      r = ⟨fi, ga, gv, segs, ee⟩ := by
  cases j
  case' jobj o =>
    simp only [AnalysisResult.model_validate, asObj, except_ok_bind] at hv
    rw [except_bind_ok] at hv
    obtain ⟨fi, hfi, hv⟩ := hv
    rw [except_bind_ok] at hv
    obtain ⟨ga, hga, hv⟩ := hv
    rw [except_bind_ok] at hv
    obtain ⟨gv, hgv, hv⟩ := hv
    rw [except_bind_ok] at hv
    obtain ⟨segs, hsegs, hv⟩ := hv
    rw [except_bind_ok] at hv
    obtain ⟨ee, hee, hv⟩ := hv
    injection hv with hr
    exact ⟨o, fi, ga, gv, segs, ee, rfl, hfi, hga, hgv, hsegs, hee, hr.symm⟩
  all_goals simp [AnalysisResult.model_validate, asObj, Bind.bind, Except.bind] at hv

theorem vListField_seg_fixed {o : List (String × Json)}
    {segs : List TimelineSegment}
    (h : vListField TimelineSegment.model_validate o "timeline_segments" = .ok segs) :
    ∀ s ∈ segs, s.coerce_time_range = s := by
  rcases hg : objGet o "timeline_segments" with _ | v
  · simp only [vListField, hg] at h
    injection h with h
    subst h
    intro s hs
    cases hs
  · cases v <;> simp only [vListField, hg] at h <;> try cases h
    case jarr xs =>
      intro s hs
      obtain ⟨jv, hjv⟩ := vList_mem_ok TimelineSegment.model_validate h s hs
      exact validate_seg_fixed hjv

theorem analysisResult_validate_dump {j : Json} {r : AnalysisResult}
    (hv : AnalysisResult.model_validate j = .ok r) :
    AnalysisResult.model_validate r.model_dump = .ok r := by
  obtain ⟨o, fi, ga, gv, segs, ee, hj, hfi, hga, hgv, hsegs, hee, hr⟩ :=
    AnalysisResult.validate_ok_parts hv
  have hfix := vListField_seg_fixed hsegs
  subst hr
  simp only [AnalysisResult.model_validate, AnalysisResult.model_dump, asObj,
    except_ok_bind]
  rw [except_bind_ok]
  refine ⟨fi, vOptField_dump FileInfo.model_validate FileInfo.model_dump
    fileInfo_roundtrip (fun _ h' => Json.noConfusion h') _ _ _ rfl, ?_⟩
  rw [except_bind_ok]
  refine ⟨ga, vOptField_dump GlobalAnalysis.model_validate
    GlobalAnalysis.model_dump globalAnalysis_roundtrip
    (fun _ h' => Json.noConfusion h') _ _ _ rfl, ?_⟩
  rw [except_bind_ok]
  refine ⟨gv, vOptField_dump GlobalViralityAnalysis.model_validate
    GlobalViralityAnalysis.model_dump globalVirality_roundtrip
    (fun _ h' => Json.noConfusion h') _ _ _ rfl, ?_⟩
  rw [except_bind_ok]
  refine ⟨segs, vListField_of_get rfl (vList_seg_dump segs hfix), ?_⟩
  · rw [except_bind_ok]
    refine ⟨ee, vOptField_dump ExtractedEntities.model_validate
      ExtractedEntities.model_dump extractedEntities_roundtrip
      (fun _ h' => Json.noConfusion h') _ _ _ rfl, ?_⟩
    rfl

/-- Claim C6: re-validating the serialized form of an already-validated
report gives the same result as the original validation
(`coerce_and_validate(coerce_and_validate(x).to_json()) =
coerce_and_validate(x)` whenever the first validation succeeds). -/
theorem claim_C6 :
    ∀ (x : Json) (r : AnalysisResult),
      AnalysisResult.model_validate x = .ok r →
      AnalysisResult.model_validate r.model_dump =
        AnalysisResult.model_validate x := by
  intro x r h
  rw [h]
  exact analysisResult_validate_dump h

/-- Witness for C6: the empty mapping validates to the empty report, whose
serialization re-validates identically. -/
theorem claim_C6_witness :
    AnalysisResult.model_validate (AnalysisResult.model_dump {}) =
      AnalysisResult.model_validate (.jobj []) :=
  claim_C6 (.jobj []) {} rfl

/-! ## Claim C3: fence-wrapped valid JSON (groundwork)

A successfully parsed JSON text, after trimming, starts and ends with
characters that are neither Python whitespace nor backticks; this is what
lets the fence-stripping cleanup leave the JSON content intact. -/

/-- A character that is not Python whitespace and not a backtick. -/
def goodChar (c : Char) : Prop := isPyWs c = false ∧ c ≠ '\x60'

/-- The last character (if any) of a chunk is good. -/
def lastGood (w : List Char) : Prop :=
  ∀ c, w.getLast? = some c → goodChar c

theorem mem_of_getLast? {w : List Char} {c : Char}
    (h : w.getLast? = some c) : c ∈ w := by
  induction w using List.reverseRecOn with
  | nil => cases h
  | append_singleton xs x _ =>
    rw [List.getLast?_concat] at h
    injection h with h
    simp [h]

theorem lastGood_append {w2 : List Char} (h2 : w2 ≠ [])
    (hg : lastGood w2) (w1 : List Char) : lastGood (w1 ++ w2) := by
  intro c hc
  rw [List.getLast?_append_of_ne_nil w1 h2] at hc
  exact hg c hc

theorem lastGood_of_all {w : List Char} (h : ∀ c ∈ w, goodChar c) :
    lastGood w :=
  fun c hc => h c (mem_of_getLast? hc)

theorem lastGood_concat {w : List Char} {c : Char} (h : goodChar c) :
    lastGood (w ++ [c]) := by
  intro d hd
  rw [List.getLast?_concat] at hd
  injection hd with hd
  rw [← hd]
  exact h

theorem digit_good {c : Char} (h : isDigitCh c = true) : goodChar c := by
  simp only [isDigitCh, digitChars, List.contains, List.elem_eq_mem,
    decide_eq_true_eq, List.mem_cons, List.not_mem_nil, or_false] at h
  rcases h with rfl | rfl | rfl | rfl | rfl | rfl | rfl | rfl | rfl | rfl <;>
    exact ⟨by decide, by decide⟩

theorem digit_not_jsonWs {c : Char} (h : isDigitCh c = true) :
    isJsonWs c = false := by
  simp only [isDigitCh, digitChars, List.contains, List.elem_eq_mem,
    decide_eq_true_eq, List.mem_cons, List.not_mem_nil, or_false] at h
  rcases h with rfl | rfl | rfl | rfl | rfl | rfl | rfl | rfl | rfl | rfl <;> rfl

theorem jsonWs_imp_pyWs {c : Char} (h : isJsonWs c = true) :
    isPyWs c = true := by
  simp only [isJsonWs, jsonWsChars, List.contains, List.elem_eq_mem,
    decide_eq_true_eq, List.mem_cons, List.not_mem_nil, or_false] at h
  rcases h with rfl | rfl | rfl | rfl <;> rfl

theorem goodChar_not_pyWs {c : Char} (h : goodChar c) : isPyWs c = false := h.1

theorem goodChar_not_jsonWs {c : Char} (h : goodChar c) :
    isJsonWs c = false := by
  cases hj : isJsonWs c
  · rfl
  · exact absurd h.1 (by simp [jsonWs_imp_pyWs hj])

/-- Splitting off the whitespace skipped by `skipJsonWs`. -/
theorem skipJsonWs_decomp (l : List Char) :
    ∃ ws, l = ws ++ skipJsonWs l ∧ ∀ c ∈ ws, isJsonWs c = true := by
  refine ⟨l.takeWhile isJsonWs, ?_, fun c hc => List.mem_takeWhile_imp hc⟩
  rw [skipJsonWs, List.takeWhile_append_dropWhile]

theorem lastGood_singleton {c : Char} (h : goodChar c) : lastGood [c] := by
  intro d hd
  simp only [List.getLast?_singleton, Option.some.injEq] at hd
  rw [← hd]
  exact h


theorem unescapeOne_decomp {r : List Char} {ch : Char} {rest2 : List Char}
    (h : unescapeOne r = some (ch, rest2)) :
    ∃ w, r = w ++ rest2 ∧ w ≠ [] := by
  cases r with
  | nil => cases h
  | cons e r2 =>
    simp only [unescapeOne] at h
    split at h
    · split at h
      · rename_i a b c2 d rest3
        split at h
        · split at h
          · split at h
            · rename_i b1 u2 a2 b2 c3 d2 rest4
              split at h
              · split at h
                · split at h
                  · simp only [Option.some.injEq, Prod.mk.injEq] at h
                    obtain ⟨_, hrest⟩ := h
                    subst hrest
                    exact ⟨e :: a :: b :: c2 :: d :: b1 :: u2 :: a2 :: b2 :: c3 :: d2 :: [],
                      by simp, by simp⟩
                  · cases h
                · cases h
              · cases h
            · cases h
          · split at h
            · cases h
            · simp only [Option.some.injEq, Prod.mk.injEq] at h
              obtain ⟨_, hrest⟩ := h
              subst hrest
              exact ⟨[e, a, b, c2, d], by simp, by simp⟩
        · cases h
      · cases h
    · split at h
      · simp only [Option.some.injEq, Prod.mk.injEq] at h
        obtain ⟨_, hrest⟩ := h
        subst hrest
        exact ⟨[e], by simp, by simp⟩
      · cases h

theorem parseStringBody_decomp :
    ∀ (f : Nat) (l s rest : List Char), parseStringBody f l = some (s, rest) →
      ∃ w, l = w ++ rest ∧ w ≠ [] ∧ lastGood w := by
  intro f
  induction f with
  | zero => intro l s rest h; cases h
  | succ f ih =>
    intro l s rest h
    cases l with
    | nil => cases h
    | cons c r =>
      simp only [parseStringBody] at h
      split at h
      · rename_i h1
        simp only [Option.some.injEq, Prod.mk.injEq] at h
        obtain ⟨_, hrest⟩ := h
        subst hrest
        refine ⟨[c], rfl, by simp, ?_⟩
        have hc : c = '"' := by simpa using h1
        rw [hc]
        exact lastGood_singleton ⟨by decide, by decide⟩
      · split at h
        · split at h
          · rename_i hu
            obtain ⟨p, hp, hf⟩ := Option.map_eq_some'.mp h
            obtain ⟨_, hrest⟩ := Prod.mk.injEq .. |>.mp hf
            obtain ⟨wu, hwu, hwune⟩ := unescapeOne_decomp hu
            obtain ⟨w', hw', hne', hlg'⟩ := ih _ p.1 p.2 hp
            rw [← hrest, hwu, hw']
            exact ⟨c :: wu ++ w', by simp, by simp,
              lastGood_append hne' hlg' (c :: wu)⟩
          · cases h
        · split at h
          · cases h
          · obtain ⟨p, hp, hf⟩ := Option.map_eq_some'.mp h
            obtain ⟨_, hrest⟩ := Prod.mk.injEq .. |>.mp hf
            obtain ⟨w', hw', hne', hlg'⟩ := ih r p.1 p.2 hp
            rw [← hrest, hw']
            exact ⟨c :: w', by simp, by simp,
              lastGood_append hne' hlg' ([c])⟩

theorem span_digits_decomp (l : List Char) :
    l = l.takeWhile isDigitCh ++ l.dropWhile isDigitCh ∧
      ∀ c ∈ l.takeWhile isDigitCh, goodChar c :=
  ⟨(List.takeWhile_append_dropWhile _ _).symm,
   fun _ hc => digit_good (List.mem_takeWhile_imp hc)⟩

theorem parseExpDigits_decomp {mant : Rat} {esgn : Int} {v : Json}
    {r3 r4 : List Char} (h : parseExpDigits mant esgn r3 = some (v, r4)) :
    r3 = r3.takeWhile isDigitCh ++ r4 := by
  by_cases hep : r3.takeWhile isDigitCh = []
  · simp only [parseExpDigits, if_pos hep] at h
    cases h
  · simp only [parseExpDigits, if_neg hep, Option.some.injEq,
      Prod.mk.injEq] at h
    rw [← h.2]
    exact (span_digits_decomp r3).1

theorem parseExpTail_decomp {mant : Rat} {v : Json} {r2 r4 : List Char}
    (h : parseExpTail mant r2 = some (v, r4)) :
    ∃ w, r2 = w ++ r4 ∧ ∀ c ∈ w, goodChar c := by
  cases r2 with
  | nil => cases h
  | cons c t =>
    simp only [parseExpTail] at h
    split at h
    · rename_i hm
      have hc : c = '-' := by simpa using hm
      subst hc
      refine ⟨'-' :: t.takeWhile isDigitCh, by simpa using parseExpDigits_decomp h, ?_⟩
      intro d hd
      rcases List.mem_cons.mp hd with rfl | hd
      · exact ⟨by decide, by decide⟩
      · exact (span_digits_decomp t).2 d hd
    · split at h
      · rename_i hp
        have hc : c = '+' := by simpa using hp
        subst hc
        refine ⟨'+' :: t.takeWhile isDigitCh, by simpa using parseExpDigits_decomp h, ?_⟩
        intro d hd
        rcases List.mem_cons.mp hd with rfl | hd
        · exact ⟨by decide, by decide⟩
        · exact (span_digits_decomp t).2 d hd
      · exact ⟨(c :: t).takeWhile isDigitCh, parseExpDigits_decomp h,
          (span_digits_decomp (c :: t)).2⟩

theorem parseAfterMant_decomp {mant : Rat} {isInt : Bool} {ipv : Int}
    {v : Json} {r rest : List Char}
    (h : parseAfterMant mant isInt ipv r = some (v, rest)) :
    ∃ w, r = w ++ rest ∧ ∀ c ∈ w, goodChar c := by
  cases r with
  | nil =>
    refine ⟨[], ?_, by simp⟩
    simp only [parseAfterMant] at h
    split at h <;>
      · simp only [Option.some.injEq, Prod.mk.injEq] at h
        rw [List.nil_append]
        exact h.2
  | cons c t =>
    simp only [parseAfterMant] at h
    split at h
    · rename_i he
      obtain ⟨w, hw, hg⟩ := parseExpTail_decomp h
      refine ⟨c :: w, by simp [hw], ?_⟩
      intro d hd
      rcases List.mem_cons.mp hd with rfl | hd
      · rcases Bool.or_eq_true .. |>.mp he with h' | h'
        · rw [show d = 'e' from by simpa using h']
          exact ⟨by decide, by decide⟩
        · rw [show d = 'E' from by simpa using h']
          exact ⟨by decide, by decide⟩
      · exact hg d hd
    · split at h <;>
        · simp only [Option.some.injEq, Prod.mk.injEq] at h
          refine ⟨[], ?_, by simp⟩
          rw [List.nil_append]
          exact h.2

theorem parseFracRest_decomp {sgn ipv : Int} {v : Json} {r2 rest : List Char}
    (h : parseFracRest sgn ipv r2 = some (v, rest)) :
    ∃ w, r2 = w ++ rest ∧ ∀ c ∈ w, goodChar c := by
  by_cases hfp : r2.takeWhile isDigitCh = []
  · simp only [parseFracRest, if_pos hfp] at h
    cases h
  · simp only [parseFracRest, if_neg hfp] at h
    obtain ⟨w3, hw3, hg3⟩ := parseAfterMant_decomp h
    refine ⟨r2.takeWhile isDigitCh ++ w3, ?_, ?_⟩
    · rw [List.append_assoc, ← hw3]
      exact (span_digits_decomp r2).1
    · intro d hd
      rcases List.mem_append.mp hd with hd | hd
      · exact (span_digits_decomp r2).2 d hd
      · exact hg3 d hd

theorem parseIntRest_decomp {sgn : Int} {v : Json} {l1 rest : List Char}
    (h : parseIntRest sgn l1 = some (v, rest)) :
    ∃ w, l1 = w ++ rest ∧ w ≠ [] ∧ ∀ c ∈ w, goodChar c := by
  by_cases hip : l1.takeWhile isDigitCh = []
  · simp only [parseIntRest, if_pos hip] at h
    cases h
  · simp only [parseIntRest, if_neg hip] at h
    split at h
    · cases h
    · split at h
      · rename_i c r2 hr1
        split at h
        · rename_i hdot
          have hc : c = '.' := by simpa using hdot
          subst hc
          obtain ⟨w2, hw2, hg2⟩ := parseFracRest_decomp h
          refine ⟨l1.takeWhile isDigitCh ++ '.' :: w2, ?_, ?_, ?_⟩
          · rw [List.append_assoc]
            conv_lhs => rw [(span_digits_decomp l1).1, hr1, hw2]
            simp
          · simp [hip]
          · intro d hd
            rcases List.mem_append.mp hd with hd | hd
            · exact (span_digits_decomp l1).2 d hd
            rcases List.mem_cons.mp hd with rfl | hd
            · exact ⟨by decide, by decide⟩
            · exact hg2 d hd
        · obtain ⟨w3, hw3, hg3⟩ := parseAfterMant_decomp h
          refine ⟨l1.takeWhile isDigitCh ++ w3, ?_, ?_, ?_⟩
          · rw [List.append_assoc]
            conv_lhs => rw [(span_digits_decomp l1).1, hr1, hw3]
          · simp [hip]
          · intro d hd
            rcases List.mem_append.mp hd with hd | hd
            · exact (span_digits_decomp l1).2 d hd
            · exact hg3 d hd
      · rename_i hr1
        obtain ⟨w3, hw3, hg3⟩ := parseAfterMant_decomp h
        have hw3nil : w3 = [] := by
          cases w3 with
          | nil => rfl
          | cons a b => cases hw3
        subst hw3nil
        have hrest : rest = [] := by simpa using hw3.symm
        subst hrest
        refine ⟨l1.takeWhile isDigitCh, ?_, hip, (span_digits_decomp l1).2⟩
        conv_lhs => rw [(span_digits_decomp l1).1, hr1]

theorem parseNumber_decomp {l : List Char} {v : Json} {rest : List Char}
    (h : parseNumber l = some (v, rest)) :
    ∃ w, l = w ++ rest ∧ w ≠ [] ∧ ∀ c ∈ w, goodChar c := by
  cases l with
  | nil => cases h
  | cons c t =>
    simp only [parseNumber] at h
    split at h
    · rename_i hm
      have hc : c = '-' := by simpa using hm
      subst hc
      obtain ⟨w, hw, hne, hg⟩ := parseIntRest_decomp h
      refine ⟨'-' :: w, by simp [hw], by simp, ?_⟩
      intro d hd
      rcases List.mem_cons.mp hd with rfl | hd
      · exact ⟨by decide, by decide⟩
      · exact hg d hd
    · exact parseIntRest_decomp h

/-- The consumed chunk of a successful parse is nonempty and ends in a
character that is neither Python whitespace nor a backtick. -/
theorem parse_decomp (f : Nat) :
    (∀ l v rest, parseValue f l = some (v, rest) →
      ∃ w, l = w ++ rest ∧ w ≠ [] ∧ lastGood w) ∧
    (∀ l acc v rest, parseElems f l acc = some (v, rest) →
      ∃ w, l = w ++ rest ∧ w ≠ [] ∧ lastGood w) ∧
    (∀ l acc v rest, parseMembers f l acc = some (v, rest) →
      ∃ w, l = w ++ rest ∧ w ≠ [] ∧ lastGood w) := by
  induction f with
  | zero =>
    refine ⟨fun l v rest h => ?_, fun l acc v rest h => ?_,
      fun l acc v rest h => ?_⟩ <;> cases h
  | succ f ih =>
    obtain ⟨ihV, ihE, ihM⟩ := ih
    refine ⟨?_, ?_, ?_⟩
    · -- parseValue
      intro l v rest h
      cases l with
      | nil => cases h
      | cons c r =>
        obtain ⟨ws, hws, hwsall⟩ := skipJsonWs_decomp r
        simp only [parseValue] at h
        by_cases h1 : (c == '\x7b') = true
        · rw [if_pos h1] at h
          rcases hm : skipJsonWs r with _ | ⟨c2, r'⟩
          · simp [hm] at h
          · rw [hm] at hws
            simp only [hm] at h
            by_cases h2 : (c2 == '\x7d') = true
            · rw [if_pos h2] at h
              simp only [Option.some.injEq, Prod.mk.injEq] at h
              obtain ⟨_, hrest⟩ := h
              subst hrest
              refine ⟨c :: ws ++ [c2], ?_, by simp, ?_⟩
              · rw [hws]
                simp
              · refine lastGood_append (by simp) ?_ (c :: ws)
                rw [show c2 = '\x7d' from by simpa using h2]
                exact lastGood_singleton ⟨by decide, by decide⟩
            · rw [if_neg h2] at h
              obtain ⟨wm, hwm, hwmne, hwmlg⟩ := ihM _ _ _ _ h
              rw [hwm] at hws
              refine ⟨c :: ws ++ wm, ?_, by simp, ?_⟩
              · rw [hws]
                simp
              · exact lastGood_append hwmne hwmlg (c :: ws)
        · rw [if_neg h1] at h
          by_cases h2 : (c == '[') = true
          · rw [if_pos h2] at h
            rcases hm : skipJsonWs r with _ | ⟨c2, r'⟩
            · simp [hm] at h
            · rw [hm] at hws
              simp only [hm] at h
              by_cases h3 : (c2 == ']') = true
              · rw [if_pos h3] at h
                simp only [Option.some.injEq, Prod.mk.injEq] at h
                obtain ⟨_, hrest⟩ := h
                subst hrest
                refine ⟨c :: ws ++ [c2], ?_, by simp, ?_⟩
                · rw [hws]
                  simp
                · refine lastGood_append (by simp) ?_ (c :: ws)
                  rw [show c2 = ']' from by simpa using h3]
                  exact lastGood_singleton ⟨by decide, by decide⟩
              · rw [if_neg h3] at h
                obtain ⟨wm, hwm, hwmne, hwmlg⟩ := ihE _ _ _ _ h
                rw [hwm] at hws
                refine ⟨c :: ws ++ wm, ?_, by simp, ?_⟩
                · rw [hws]
                  simp
                · exact lastGood_append hwmne hwmlg (c :: ws)
          · rw [if_neg h2] at h
            by_cases h3 : (c == '"') = true
            · rw [if_pos h3] at h
              obtain ⟨p, hp, hf⟩ := Option.map_eq_some'.mp h
              obtain ⟨_, hrest⟩ := Prod.mk.injEq .. |>.mp hf
              obtain ⟨w', hw', hne', hlg'⟩ := parseStringBody_decomp _ _ _ _ hp
              rw [← hrest, hw']
              exact ⟨c :: w', by simp, by simp,
                lastGood_append hne' hlg' ([c])⟩
            · rw [if_neg h3] at h
              by_cases h4 : (c == 't') = true
              · rw [if_pos h4] at h
                rcases r with _ | ⟨r1, _ | ⟨r2, _ | ⟨r3, rr⟩⟩⟩ <;>
                  simp only [] at h <;> try cases h
                by_cases hb : (r1 == 'r' && r2 == 'u' && r3 == 'e') = true
                · rw [if_pos hb] at h
                  simp only [Bool.and_eq_true, beq_iff_eq] at hb
                  obtain ⟨⟨hb1, hb2⟩, hb3⟩ := hb
                  subst hb1 hb2 hb3
                  simp only [Option.some.injEq, Prod.mk.injEq] at h
                  obtain ⟨_, hrest⟩ := h
                  subst hrest
                  exact ⟨[c, 'r', 'u', 'e'], rfl, by simp,
                    lastGood_append (by simp)
                      (lastGood_singleton ⟨by decide, by decide⟩)
                      ([c, 'r', 'u'])⟩
                · rw [if_neg hb] at h
                  cases h
              · rw [if_neg h4] at h
                by_cases h5 : (c == 'f') = true
                · rw [if_pos h5] at h
                  rcases r with _ | ⟨r1, _ | ⟨r2, _ | ⟨r3, _ | ⟨r4, rr⟩⟩⟩⟩ <;>
                    simp only [] at h <;> try cases h
                  by_cases hb : (r1 == 'a' && r2 == 'l' && r3 == 's' && r4 == 'e') = true
                  · rw [if_pos hb] at h
                    simp only [Bool.and_eq_true, beq_iff_eq] at hb
                    obtain ⟨⟨⟨hb1, hb2⟩, hb3⟩, hb4⟩ := hb
                    subst hb1 hb2 hb3 hb4
                    simp only [Option.some.injEq, Prod.mk.injEq] at h
                    obtain ⟨_, hrest⟩ := h
                    subst hrest
                    exact ⟨[c, 'a', 'l', 's', 'e'], rfl, by simp,
                      lastGood_append (by simp)
                        (lastGood_singleton ⟨by decide, by decide⟩)
                        ([c, 'a', 'l', 's'])⟩
                  · rw [if_neg hb] at h
                    cases h
                · rw [if_neg h5] at h
                  by_cases h6 : (c == 'n') = true
                  · rw [if_pos h6] at h
                    rcases r with _ | ⟨r1, _ | ⟨r2, _ | ⟨r3, rr⟩⟩⟩ <;>
                      simp only [] at h <;> try cases h
                    by_cases hb : (r1 == 'u' && r2 == 'l' && r3 == 'l') = true
                    · rw [if_pos hb] at h
                      simp only [Bool.and_eq_true, beq_iff_eq] at hb
                      obtain ⟨⟨hb1, hb2⟩, hb3⟩ := hb
                      subst hb1 hb2 hb3
                      simp only [Option.some.injEq, Prod.mk.injEq] at h
                      obtain ⟨_, hrest⟩ := h
                      subst hrest
                      exact ⟨[c, 'u', 'l', 'l'], rfl, by simp,
                        lastGood_append (by simp)
                          (lastGood_singleton ⟨by decide, by decide⟩)
                          ([c, 'u', 'l'])⟩
                    · rw [if_neg hb] at h
                      cases h
                  · rw [if_neg h6] at h
                    by_cases h7 : (c == '-' || isDigitCh c) = true
                    · rw [if_pos h7] at h
                      obtain ⟨w, hw, hne, hg⟩ := parseNumber_decomp h
                      exact ⟨w, hw, hne, lastGood_of_all hg⟩
                    · rw [if_neg h7] at h
                      cases h
    · -- parseElems
      intro l acc v rest h
      simp only [parseElems] at h
      rcases hv0 : parseValue f l with _ | ⟨v0, r⟩
      · simp [hv0] at h
      · simp only [hv0] at h
        obtain ⟨wv, hwv, hwvne, _⟩ := ihV _ _ _ hv0
        obtain ⟨ws1, hws1, _⟩ := skipJsonWs_decomp r
        rcases hm : skipJsonWs r with _ | ⟨c, r2⟩
        · simp [hm] at h
        · rw [hm] at hws1
          simp only [hm] at h
          by_cases hc : (c == ',') = true
          · rw [if_pos hc] at h
            obtain ⟨ws2, hws2, _⟩ := skipJsonWs_decomp r2
            obtain ⟨we, hwe, hwene, hwelg⟩ := ihE _ _ _ _ h
            rw [hwe] at hws2
            rw [hws2] at hws1
            rw [hws1] at hwv
            refine ⟨wv ++ ws1 ++ c :: ws2 ++ we, ?_, by simp [hwvne], ?_⟩
            · rw [hwv]
              simp
            · exact lastGood_append hwene hwelg (wv ++ ws1 ++ c :: ws2)
          · rw [if_neg hc] at h
            by_cases hc2 : (c == ']') = true
            · rw [if_pos hc2] at h
              simp only [Option.some.injEq, Prod.mk.injEq] at h
              obtain ⟨_, hrest⟩ := h
              subst hrest
              rw [hws1] at hwv
              refine ⟨wv ++ ws1 ++ [c], ?_, by simp [hwvne], ?_⟩
              · rw [hwv]
                simp
              · refine lastGood_append (by simp) ?_ (wv ++ ws1)
                rw [show c = ']' from by simpa using hc2]
                exact lastGood_singleton ⟨by decide, by decide⟩
            · rw [if_neg hc2] at h
              cases h
    · -- parseMembers
      intro l acc v rest h
      cases l with
      | nil => cases h
      | cons c0 r0 =>
        simp only [parseMembers] at h
        by_cases hq : (c0 == '"') = true
        · rw [if_pos hq] at h
          rcases hk : parseStringBody (r0.length + 1) r0 with _ | ⟨k, r1⟩
          · simp [hk] at h
          · simp only [hk] at h
            obtain ⟨wk, hwk, hwkne, _⟩ := parseStringBody_decomp _ _ _ _ hk
            obtain ⟨ws1, hws1, _⟩ := skipJsonWs_decomp r1
            rcases hm1 : skipJsonWs r1 with _ | ⟨c1, r2⟩
            · simp [hm1] at h
            · rw [hm1] at hws1
              simp only [hm1] at h
              by_cases hcol : (c1 == ':') = true
              · rw [if_pos hcol] at h
                rcases hv0 : parseValue f (skipJsonWs r2) with _ | ⟨v0, r3⟩
                · simp [hv0] at h
                · simp only [hv0] at h
                  obtain ⟨ws2, hws2, _⟩ := skipJsonWs_decomp r2
                  obtain ⟨wv, hwv, hwvne, _⟩ := ihV _ _ _ hv0
                  rw [hwv] at hws2
                  obtain ⟨ws3, hws3, _⟩ := skipJsonWs_decomp r3
                  rcases hm2 : skipJsonWs r3 with _ | ⟨c2, r4⟩
                  · simp [hm2] at h
                  · rw [hm2] at hws3
                    simp only [hm2] at h
                    by_cases hcm : (c2 == ',') = true
                    · rw [if_pos hcm] at h
                      obtain ⟨ws4, hws4, _⟩ := skipJsonWs_decomp r4
                      obtain ⟨wm, hwm, hwmne, hwmlg⟩ := ihM _ _ _ _ h
                      rw [hwm] at hws4
                      rw [hws4] at hws3
                      rw [hws3] at hws2
                      rw [hws2] at hws1
                      rw [hws1] at hwk
                      refine ⟨c0 :: wk ++ ws1 ++ c1 :: ws2 ++ wv ++ ws3 ++
                        c2 :: ws4 ++ wm, ?_, by simp, ?_⟩
                      · rw [hwk]
                        simp
                      · exact lastGood_append hwmne hwmlg
                          (c0 :: wk ++ ws1 ++ c1 :: ws2 ++ wv ++ ws3 ++ c2 :: ws4)
                    · rw [if_neg hcm] at h
                      by_cases hcb : (c2 == '\x7d') = true
                      · rw [if_pos hcb] at h
                        simp only [Option.some.injEq, Prod.mk.injEq] at h
                        obtain ⟨_, hrest⟩ := h
                        subst hrest
                        rw [hws3] at hws2
                        rw [hws2] at hws1
                        rw [hws1] at hwk
                        refine ⟨c0 :: wk ++ ws1 ++ c1 :: ws2 ++ wv ++ ws3 ++ [c2],
                          ?_, by simp, ?_⟩
                        · rw [hwk]
                          simp
                        · refine lastGood_append (by simp) ?_
                            (c0 :: wk ++ ws1 ++ c1 :: ws2 ++ wv ++ ws3)
                          rw [show c2 = '\x7d' from by simpa using hcb]
                          exact lastGood_singleton ⟨by decide, by decide⟩
                      · rw [if_neg hcb] at h
                        cases h
              · rw [if_neg hcol] at h
                cases h
        · rw [if_neg hq] at h
          cases h

theorem parseValue_head (f : Nat) (l : List Char) (v : Json) (rest : List Char)
    (h : parseValue f l = some (v, rest)) :
    ∃ c r, l = c :: r ∧ goodChar c := by
  cases f with
  | zero => cases h
  | succ f =>
    cases l with
    | nil => cases h
    | cons c r =>
      refine ⟨c, r, rfl, ?_⟩
      simp only [parseValue] at h
      by_cases h1 : (c == '\x7b') = true
      · rw [show c = '\x7b' from by simpa using h1]
        exact ⟨by decide, by decide⟩
      rw [if_neg h1] at h
      by_cases h2 : (c == '[') = true
      · rw [show c = '[' from by simpa using h2]
        exact ⟨by decide, by decide⟩
      rw [if_neg h2] at h
      by_cases h3 : (c == '"') = true
      · rw [show c = '"' from by simpa using h3]
        exact ⟨by decide, by decide⟩
      rw [if_neg h3] at h
      by_cases h4 : (c == 't') = true
      · rw [show c = 't' from by simpa using h4]
        exact ⟨by decide, by decide⟩
      rw [if_neg h4] at h
      by_cases h5 : (c == 'f') = true
      · rw [show c = 'f' from by simpa using h5]
        exact ⟨by decide, by decide⟩
      rw [if_neg h5] at h
      by_cases h6 : (c == 'n') = true
      · rw [show c = 'n' from by simpa using h6]
        exact ⟨by decide, by decide⟩
      rw [if_neg h6] at h
      by_cases h7 : (c == '-' || isDigitCh c) = true
      · rcases Bool.or_eq_true .. |>.mp h7 with h' | h'
        · rw [show c = '-' from by simpa using h']
          exact ⟨by decide, by decide⟩
        · exact digit_good h'
      · rw [if_neg h7] at h
        cases h

theorem jsonLoadsChars_ok {l : List Char} {v : Json}
    (h : jsonLoadsChars l = some v) :
    parseValue ((trimJsonWs l).length + 2) (trimJsonWs l) = some (v, []) := by
  unfold jsonLoadsChars at h
  rcases hp : parseValue ((trimJsonWs l).length + 2) (trimJsonWs l)
    with _ | ⟨v', rest⟩
  · simp only [hp] at h
    cases h
  · rcases rest with _ | ⟨a, b⟩
    · simp only [hp, Option.some.injEq] at h
      rw [← h]
    · simp only [hp] at h
      cases h

theorem rdropWhile_append_rtakeWhile (p : Char → Bool) (m : List Char) :
    List.rdropWhile p m ++ List.rtakeWhile p m = m := by
  rw [List.rdropWhile, List.rtakeWhile, ← List.reverse_append,
    List.takeWhile_append_dropWhile, List.reverse_reverse]

theorem mem_rtakeWhile_imp {p : Char → Bool} {m : List Char} {c : Char}
    (h : c ∈ List.rtakeWhile p m) : p c = true := by
  rw [List.rtakeWhile, List.mem_reverse] at h
  exact List.mem_takeWhile_imp h

theorem trimJsonWs_decomp (l : List Char) :
    ∃ lws rws, l = lws ++ trimJsonWs l ++ rws ∧
      (∀ c ∈ lws, isJsonWs c = true) ∧ (∀ c ∈ rws, isJsonWs c = true) := by
  refine ⟨l.takeWhile isJsonWs,
    List.rtakeWhile isJsonWs (l.dropWhile isJsonWs), ?_,
    fun c hc => List.mem_takeWhile_imp hc, fun c hc => mem_rtakeWhile_imp hc⟩
  unfold trimJsonWs
  rw [List.append_assoc, rdropWhile_append_rtakeWhile,
    List.takeWhile_append_dropWhile]

theorem dropWhile_append_all {p : Char → Bool} {xs : List Char}
    (h : ∀ c ∈ xs, p c = true) (m : List Char) :
    (xs ++ m).dropWhile p = m.dropWhile p := by
  induction xs with
  | nil => rfl
  | cons x xs ih =>
    rw [List.cons_append, List.dropWhile_cons_of_pos (h x (by simp))]
    exact ih (fun c hc => h c (by simp [hc]))

theorem rdropWhile_append_all {p : Char → Bool} {ws : List Char}
    (h : ∀ c ∈ ws, p c = true) (m : List Char) :
    List.rdropWhile p (m ++ ws) = List.rdropWhile p m := by
  induction ws using List.reverseRecOn with
  | nil => simp
  | append_singleton ws x ih =>
    rw [← List.append_assoc,
      List.rdropWhile_concat_pos p _ x (h x (by simp))]
    exact ih (fun c hc => h c (by simp [hc]))

theorem rdropWhile_self_of_good {p : Char → Bool} {t : List Char}
    (h : ∀ c, t.getLast? = some c → p c = false) :
    List.rdropWhile p t = t := by
  rw [List.rdropWhile_eq_self_iff]
  intro hl
  rw [h (t.getLast hl) (List.getLast?_eq_getLast_of_ne_nil hl)]
  simp

theorem startsFence_true_head {m : List Char} (h : startsFence m = true) :
    m.head? = some '\x60' := by
  unfold startsFence at h
  split at h
  · rfl
  · cases h

theorem endsFence_false_of_getLast {l : List Char} {c : Char}
    (hc : l.getLast? = some c) (hne : c ≠ '\x60') : endsFence l = false := by
  cases hf : endsFence l
  · rfl
  · have h2 := startsFence_true_head hf
    rw [List.head?_reverse, hc] at h2
    injection h2 with h2
    exact absurd h2 hne

theorem afterFirstNL_cons_ne {c : Char} (hc : c ≠ '\n') (r : List Char) :
    afterFirstNL (c :: r) = afterFirstNL r := by
  simp only [afterFirstNL]

theorem afterFirstNL_append {pre : List Char} (h : '\n' ∉ pre)
    (X : List Char) : afterFirstNL (pre ++ '\n' :: X) = some X := by
  induction pre with
  | nil => rfl
  | cons c p ih =>
    rw [List.cons_append,
      afterFirstNL_cons_ne (fun hc => h (by simp [hc])) _,
      ih (fun hm => h (by simp [hm]))]

/-- Bundle of facts about a successfully parsed JSON text: it splits into
JSON whitespace around a core `t` that parses exactly, starts with a good
character, and ends with a good character. -/
theorem loads_core {l : List Char} {v : Json} (h : jsonLoadsChars l = some v) :
    ∃ lws t rws, l = lws ++ t ++ rws ∧
      (∀ c ∈ lws, isJsonWs c = true) ∧ (∀ c ∈ rws, isJsonWs c = true) ∧
      parseValue (t.length + 2) t = some (v, []) ∧
      (∃ c r, t = c :: r ∧ goodChar c) ∧ lastGood t := by
  have hp := jsonLoadsChars_ok h
  obtain ⟨lws, rws, hsplit, hl, hr⟩ := trimJsonWs_decomp l
  obtain ⟨w, hw, hwne, hwlg⟩ := (parse_decomp _).1 _ _ _ hp
  have hwt : trimJsonWs l = w := by simpa using hw
  obtain ⟨c, r, ht, hgc⟩ := parseValue_head _ _ _ _ hp
  refine ⟨lws, trimJsonWs l, rws, hsplit, hl, hr, hp, ⟨c, r, ht, hgc⟩, ?_⟩
  rw [hwt]
  exact hwlg

theorem trim_of_parts {lws t rws : List Char}
    (hlws : ∀ c ∈ lws, isJsonWs c = true) (hrws : ∀ c ∈ rws, isJsonWs c = true)
    (hhead : ∃ c r, t = c :: r ∧ goodChar c) (hlast : lastGood t) :
    trimJsonWs (lws ++ t ++ rws) = t := by
  obtain ⟨c, r, rfl, hgc⟩ := hhead
  unfold trimJsonWs
  rw [List.append_assoc, dropWhile_append_all hlws, List.cons_append,
    List.dropWhile_cons_of_neg (by simp [goodChar_not_jsonWs hgc]),
    ← List.cons_append, rdropWhile_append_all hrws]
  exact rdropWhile_self_of_good (fun d hd => goodChar_not_jsonWs (hlast d hd))

theorem jsonLoadsChars_of_parts {lws t rws : List Char} {v : Json}
    (hlws : ∀ c ∈ lws, isJsonWs c = true) (hrws : ∀ c ∈ rws, isJsonWs c = true)
    (hhead : ∃ c r, t = c :: r ∧ goodChar c) (hlast : lastGood t)
    (hp : parseValue (t.length + 2) t = some (v, [])) :
    jsonLoadsChars (lws ++ t ++ rws) = some v := by
  unfold jsonLoadsChars
  rw [trim_of_parts hlws hrws hhead hlast]
  simp only [hp]

theorem stripPy_of_parts {lws t rws : List Char}
    (hlws : ∀ c ∈ lws, isJsonWs c = true) (hrws : ∀ c ∈ rws, isJsonWs c = true)
    (hhead : ∃ c r, t = c :: r ∧ goodChar c) (hlast : lastGood t) :
    stripPy (lws ++ t ++ rws) = t := by
  obtain ⟨c, r, rfl, hgc⟩ := hhead
  unfold stripPy lstripPy rstripPy
  rw [List.append_assoc, dropWhile_append_all
      (fun d hd => jsonWs_imp_pyWs (hlws d hd)), List.cons_append,
    List.dropWhile_cons_of_neg (by simp [hgc.1]),
    ← List.cons_append,
    rdropWhile_append_all (fun d hd => jsonWs_imp_pyWs (hrws d hd))]
  exact rdropWhile_self_of_good (fun d hd => (hlast d hd).1)

theorem rstripPy_ends_good {y t : List Char} (hne : t ≠ [])
    (hlast : lastGood t) : rstripPy (y ++ t) = y ++ t := by
  unfold rstripPy
  refine rdropWhile_self_of_good (fun d hd => ?_)
  rw [List.getLast?_append_of_ne_nil y hne] at hd
  exact (hlast d hd).1

theorem endsFence_append_false {y t : List Char} (hne : t ≠ [])
    (hlast : lastGood t) : endsFence (y ++ t) = false := by
  have hc := List.getLast?_eq_getLast_of_ne_nil hne
  refine endsFence_false_of_getLast ?_ (hlast _ hc).2
  rw [List.getLast?_append_of_ne_nil y hne]
  exact hc

theorem startsFence_false_of_head {c : Char} {r : List Char}
    (h : c ≠ '\x60') : startsFence (c :: r) = false := by
  cases hf : startsFence (c :: r)
  · rfl
  · have h2 := startsFence_true_head hf
    injection h2 with h2
    exact absurd h2 h

theorem endsFence_concat3 (y : List Char) :
    endsFence (y ++ ['\x60', '\x60', '\x60']) = true := by
  unfold endsFence
  rw [List.reverse_append]
  rfl

theorem dropLast3_concat3 (y : List Char) :
    dropLast3 (y ++ ['\x60', '\x60', '\x60']) = y := by
  unfold dropLast3
  rw [show y ++ ['\x60', '\x60', '\x60'] =
      ((y ++ ['\x60']) ++ ['\x60']) ++ ['\x60'] from by simp,
    List.rdrop_concat_succ, List.rdrop_concat_succ, List.rdrop_concat_succ,
    List.rdrop_zero]

theorem stripPy_fence {z t rws : List Char} (hne : t ≠ [])
    (hlast : ∀ c, t.getLast? = some c → isPyWs c = false)
    (hrws : ∀ c ∈ rws, isPyWs c = true) :
    stripPy (('\x60' :: z) ++ t ++ rws) = ('\x60' :: z) ++ t := by
  unfold stripPy lstripPy rstripPy
  rw [List.append_assoc, List.cons_append,
    List.dropWhile_cons_of_neg (by decide)]
  rw [show '\x60' :: (z ++ (t ++ rws)) = (('\x60' :: z) ++ t) ++ rws from by
    simp]
  rw [rdropWhile_append_all hrws]
  refine rdropWhile_self_of_good (fun d hd => ?_)
  rw [List.getLast?_append_of_ne_nil _ hne] at hd
  exact hlast d hd

/-- Claim C3: a string whose content is valid JSON, optionally wrapped in a
leading triple-backtick fence line (with an optional language tag) and an
optional trailing closing fence (with or without its own line), extracts to
exactly the parsed JSON value. -/
theorem claim_C3 :
    ∀ (content lang : String) (v : Json),
      json_loads content = some v →
      '\n' ∉ lang.data →
      parse_json_from_model_text content = v ∧
      parse_json_from_model_text ("```" ++ lang ++ "\n" ++ content) = v ∧
      parse_json_from_model_text ("```" ++ lang ++ "\n" ++ content ++ "\n```") = v ∧
      parse_json_from_model_text ("```" ++ lang ++ "\n" ++ content ++ "```") = v := by
  intro content lang v hv hlang
  obtain ⟨L, T, R, hsplit, hL, hR, hp, hhead, hlast⟩ := loads_core hv
  obtain ⟨c0, r0, hT, hgc⟩ := hhead
  have hTne : T ≠ [] := by rw [hT]; simp
  have extract_of : ∀ (s : String) (lws' rws' : List Char),
      (∀ c ∈ lws', isJsonWs c = true) → (∀ c ∈ rws', isJsonWs c = true) →
      stripFencesChars s.data = lws' ++ T ++ rws' →
      parse_json_from_model_text s = v := by
    intro s lws' rws' hlw hrw hsfc
    have hload : json_loads (stripFences s) = some v := by
      show jsonLoadsChars (stripFences s).data = some v
      have hdata : (stripFences s).data = stripFencesChars s.data := rfl
      rw [hdata, hsfc]
      exact jsonLoadsChars_of_parts hlw hrw ⟨c0, r0, hT, hgc⟩ hlast hp
    simp only [parse_json_from_model_text, hload]
  have hpre : ('\n' : Char) ∉ '\x60' :: '\x60' :: '\x60' :: lang.data := by
    simp [hlang]
  refine ⟨?_, ?_, ?_, ?_⟩
  · -- bare content
    have hstrip : stripPy content.data = T := by
      rw [hsplit]
      exact stripPy_of_parts hL hR ⟨c0, r0, hT, hgc⟩ hlast
    have hsf : startsFence T = false := by
      rw [hT]
      exact startsFence_false_of_head hgc.2
    refine extract_of content [] [] (by simp) (by simp) ?_
    simp only [stripFencesChars, hstrip, hsf, Bool.false_eq_true, if_false]
    simp
  · -- leading fence only
    have hd2 : ("```" ++ lang ++ "\n" ++ content).data =
        ('\x60' :: ('\x60' :: '\x60' :: (lang.data ++ '\n' :: L))) ++ T ++ R := by
      simp [String.data_append, hsplit]
    have hstrip : stripPy ("```" ++ lang ++ "\n" ++ content).data =
        ('\x60' :: ('\x60' :: '\x60' :: (lang.data ++ '\n' :: L))) ++ T := by
      rw [hd2]
      exact stripPy_fence hTne (fun d hd => (hlast d hd).1)
        (fun d hd => jsonWs_imp_pyWs (hR d hd))
    have hY : ('\x60' :: ('\x60' :: '\x60' :: (lang.data ++ '\n' :: L))) ++ T =
        ('\x60' :: '\x60' :: '\x60' :: lang.data) ++ '\n' :: (L ++ T) := by
      simp
    have hnl : afterFirstNL
        (('\x60' :: ('\x60' :: '\x60' :: (lang.data ++ '\n' :: L))) ++ T) =
        some (L ++ T) := by
      rw [hY]
      exact afterFirstNL_append hpre (L ++ T)
    have hrs : rstripPy (L ++ T) = L ++ T :=
      rstripPy_ends_good hTne (fun d hd => hlast d hd)
    have hef : endsFence (L ++ T) = false := endsFence_append_false hTne hlast
    have hsf2 : startsFence
        (('\x60' :: ('\x60' :: '\x60' :: (lang.data ++ '\n' :: L))) ++ T) =
        true := rfl
    refine extract_of _ L [] hL (by simp) ?_
    simp only [stripFencesChars, hstrip, hsf2, if_true, hnl, hrs, hef,
      Bool.false_eq_true, if_false]
    simp
  · -- both fences, closing fence on its own line
    have hd3 : ("```" ++ lang ++ "\n" ++ content ++ "\n```").data =
        ('\x60' :: ('\x60' :: '\x60' ::
          (lang.data ++ '\n' :: (content.data ++ ['\n', '\x60', '\x60'])))) ++
          ['\x60'] ++ [] := by
      simp [String.data_append]
    have hstrip : stripPy ("```" ++ lang ++ "\n" ++ content ++ "\n```").data =
        ('\x60' :: ('\x60' :: '\x60' ::
          (lang.data ++ '\n' :: (content.data ++ ['\n', '\x60', '\x60'])))) ++
          ['\x60'] := by
      rw [hd3]
      exact stripPy_fence (by simp)
        (fun d hd => by simp at hd; rw [← hd]; rfl) (by simp)
    have hY : ('\x60' :: ('\x60' :: '\x60' ::
        (lang.data ++ '\n' :: (content.data ++ ['\n', '\x60', '\x60'])))) ++
          ['\x60'] =
        ('\x60' :: '\x60' :: '\x60' :: lang.data) ++
          '\n' :: (content.data ++ ['\n', '\x60', '\x60', '\x60']) := by
      simp
    have hnl : afterFirstNL (('\x60' :: ('\x60' :: '\x60' ::
        (lang.data ++ '\n' :: (content.data ++ ['\n', '\x60', '\x60'])))) ++
          ['\x60']) =
        some (content.data ++ ['\n', '\x60', '\x60', '\x60']) := by
      rw [hY]
      exact afterFirstNL_append hpre _
    have hrs : rstripPy (content.data ++ ['\n', '\x60', '\x60', '\x60']) =
        content.data ++ ['\n', '\x60', '\x60', '\x60'] := by
      unfold rstripPy
      refine rdropWhile_self_of_good (fun d hd => ?_)
      rw [List.getLast?_append_of_ne_nil _ (by simp)] at hd
      simp at hd
      rw [← hd]
      rfl
    have hef : endsFence (content.data ++ ['\n', '\x60', '\x60', '\x60']) =
        true := by
      rw [show content.data ++ ['\n', '\x60', '\x60', '\x60'] =
        (content.data ++ ['\n']) ++ ['\x60', '\x60', '\x60'] from by simp]
      exact endsFence_concat3 _
    have hdrop : dropLast3 (content.data ++ ['\n', '\x60', '\x60', '\x60']) =
        content.data ++ ['\n'] := by
      rw [show content.data ++ ['\n', '\x60', '\x60', '\x60'] =
        (content.data ++ ['\n']) ++ ['\x60', '\x60', '\x60'] from by simp]
      exact dropLast3_concat3 _
    refine extract_of _ L (R ++ ['\n']) hL ?_ ?_
    · intro d hd
      rcases List.mem_append.mp hd with hd | hd
      · exact hR d hd
      · simp at hd
        rw [hd]
        rfl
    · have hsf3 : startsFence
          (('\x60' :: ('\x60' :: '\x60' ::
            (lang.data ++ '\n' :: (content.data ++ ['\n', '\x60', '\x60'])))) ++
            ['\x60']) = true := rfl
      simp only [stripFencesChars, hstrip, hsf3, if_true, hnl, hrs, hef]
      rw [hdrop, hsplit]
      simp
  · -- both fences, closing fence glued to the content
    have hd4 : ("```" ++ lang ++ "\n" ++ content ++ "```").data =
        ('\x60' :: ('\x60' :: '\x60' ::
          (lang.data ++ '\n' :: (content.data ++ ['\x60', '\x60'])))) ++
          ['\x60'] ++ [] := by
      simp [String.data_append]
    have hstrip : stripPy ("```" ++ lang ++ "\n" ++ content ++ "```").data =
        ('\x60' :: ('\x60' :: '\x60' ::
          (lang.data ++ '\n' :: (content.data ++ ['\x60', '\x60'])))) ++
          ['\x60'] := by
      rw [hd4]
      exact stripPy_fence (by simp)
        (fun d hd => by simp at hd; rw [← hd]; rfl) (by simp)
    have hY : ('\x60' :: ('\x60' :: '\x60' ::
        (lang.data ++ '\n' :: (content.data ++ ['\x60', '\x60'])))) ++
          ['\x60'] =
        ('\x60' :: '\x60' :: '\x60' :: lang.data) ++
          '\n' :: (content.data ++ ['\x60', '\x60', '\x60']) := by
      simp
    have hnl : afterFirstNL (('\x60' :: ('\x60' :: '\x60' ::
        (lang.data ++ '\n' :: (content.data ++ ['\x60', '\x60'])))) ++
          ['\x60']) =
        some (content.data ++ ['\x60', '\x60', '\x60']) := by
      rw [hY]
      exact afterFirstNL_append hpre _
    have hrs : rstripPy (content.data ++ ['\x60', '\x60', '\x60']) =
        content.data ++ ['\x60', '\x60', '\x60'] := by
      unfold rstripPy
      refine rdropWhile_self_of_good (fun d hd => ?_)
      rw [List.getLast?_append_of_ne_nil _ (by simp)] at hd
      simp at hd
      rw [← hd]
      rfl
    have hef : endsFence (content.data ++ ['\x60', '\x60', '\x60']) = true :=
      endsFence_concat3 _
    have hdrop : dropLast3 (content.data ++ ['\x60', '\x60', '\x60']) =
        content.data := dropLast3_concat3 _
    have hsf4 : startsFence
        (('\x60' :: ('\x60' :: '\x60' ::
          (lang.data ++ '\n' :: (content.data ++ ['\x60', '\x60'])))) ++
          ['\x60']) = true := rfl
    refine extract_of _ L R hL hR ?_
    simp only [stripFencesChars, hstrip, hsf4, if_true, hnl, hrs, hef]
    rw [hdrop, hsplit]

/-- Witness for C3 at a concrete fenced JSON payload. -/
theorem claim_C3_witness :
    json_loads "\x7b\"a\": [3]\x7d" =
      some (Json.jobj [("a", Json.jarr [Json.jint 3])]) ∧
    ('\n' ∉ ("json" : String).data) ∧
    (parse_json_from_model_text "\x7b\"a\": [3]\x7d" =
        Json.jobj [("a", Json.jarr [Json.jint 3])] ∧
      parse_json_from_model_text
          ("```" ++ "json" ++ "\n" ++ "\x7b\"a\": [3]\x7d") =
        Json.jobj [("a", Json.jarr [Json.jint 3])] ∧
      parse_json_from_model_text
          ("```" ++ "json" ++ "\n" ++ "\x7b\"a\": [3]\x7d" ++ "\n```") =
        Json.jobj [("a", Json.jarr [Json.jint 3])] ∧
      parse_json_from_model_text
          ("```" ++ "json" ++ "\n" ++ "\x7b\"a\": [3]\x7d" ++ "```") =
        Json.jobj [("a", Json.jarr [Json.jint 3])]) :=
  ⟨rfl, by decide,
    claim_C3 "\x7b\"a\": [3]\x7d" "json"
      (Json.jobj [("a", Json.jarr [Json.jint 3])]) rfl (by decide)⟩
